import Mathlib

/-!
Verification of the DesktopOrganizer core (classification cascade and the
transactional move/undo subsystem) against its specification.

The Python sources are shallowly embedded:

* filesystem paths are lists of path segments (`Path`); the filesystem is a
  finite map from file paths to contents together with a set of directories
  (`FS`).  `str(Path)`/`Path(str)` round-tripping is treated as the identity.
* file contents are abstracted to a `Nat` (byte-identity is content equality;
  moves carry contents unchanged, as `shutil.move` does).
* OS-level nondeterministic failures (permission errors, crashes) are outside
  the model; the deterministic failure conditions that the code checks or that
  are determined by filesystem shape (missing source file, a file standing in
  the way of `mkdir(parents=True)`, missing undo destination) are modelled
  exactly where the code catches them.
* the undo-log document on disk is modelled as the in-memory session list; the
  wholesale-rewrite persistence (`UndoLog._save`) has no observable effect on
  the properties considered and the log file itself is kept out of the file
  map.
* `datetime.now()` values are explicit inputs (`PyDateTime`), timestamps are
  opaque strings passed in.
-/

namespace DesktopOrganizer

/-! ### Decimal rendering of naturals (`Nat.repr`) is injective

`FileMover._get_unique_path` builds candidate names `f"{stem}_{counter}{suffix}"`;
establishing that the search terminates on a fresh name needs distinctness of
the rendered counters. -/

/-- Decimal digit list of a natural number, as used by `Nat.repr`. -/
def decChars (n : Nat) : List Char := Nat.toDigits 10 n

/-- A filesystem path, as its list of segments. -/
abbrev Path := List String

/-- Final path component, `PurePath.name` (empty for the root path). -/
def pathName (p : Path) : String := p.getLastD ""

/-- Parent path, `PurePath.parent` (drops the final segment). -/
def parentPath (p : Path) : Path := p.dropLast

/-- Abstract filesystem state: a finite file map plus a directory set. -/
structure FS where
  files : List (Path × Nat)
  dirs : List Path
deriving DecidableEq

/-- Content stored at a file path, if any. -/
def FS.lookupFile (fs : FS) (p : Path) : Option Nat :=
  (fs.files.find? (fun e => e.1 = p)).map (·.2)

/-- The path holds a regular file. -/
def FS.IsFile (fs : FS) (p : Path) : Prop := (fs.lookupFile p).isSome = true

/-- The path is a directory. -/
def FS.IsDir (fs : FS) (p : Path) : Prop := p ∈ fs.dirs

/-- `Path.exists()`: the path is a file or a directory. -/
def FS.Present (fs : FS) (p : Path) : Prop := fs.IsFile p ∨ fs.IsDir p

instance (fs : FS) (p : Path) : Decidable (fs.IsFile p) := by
  unfold FS.IsFile; infer_instance

instance (fs : FS) (p : Path) : Decidable (fs.IsDir p) := by
  unfold FS.IsDir; infer_instance

instance (fs : FS) (p : Path) : Decidable (fs.Present p) := by
  unfold FS.Present; infer_instance

/-- Remove the file entry at `p` (no-op when absent). -/
def FS.removeFile (fs : FS) (p : Path) : FS :=
  { fs with files := fs.files.filter (fun e => ¬ e.1 = p) }

/-- `shutil.move` for a regular file: carries the content at `src` to `dst`
unchanged, replacing anything at `dst`; a no-op when `src` is not a file (the
caller either checked existence or catches the raised `OSError`).  Moving a
directory tree never occurs in the verified scenarios and is outside the
model. -/
def FS.move (fs : FS) (src dst : Path) : FS :=
  match fs.lookupFile src with
  | none => fs
  | some c =>
      { fs with files := (dst, c) :: fs.files.filter (fun e => ¬ e.1 = src ∧ ¬ e.1 = dst) }

/-- A file stands in the way of `mkdir(parents=True, exist_ok=True)`: some
(improper) ancestor of `d` exists as a regular file, so the call raises and
creates nothing. -/
def FS.MkdirBlocked (fs : FS) (d : Path) : Prop := ∃ q ∈ d.inits, fs.IsFile q

instance (fs : FS) (d : Path) : Decidable (fs.MkdirBlocked d) := by
  unfold FS.MkdirBlocked; infer_instance

/-- `d.mkdir(parents=True, exist_ok=True)` in the unblocked case: every
ancestor of `d` (and `d` itself) becomes a directory. -/
def FS.mkdirParents (fs : FS) (d : Path) : FS :=
  { fs with dirs := fs.dirs ++ d.inits.filter (fun q => ¬ q ∈ fs.dirs) }

/-- `Path.rmdir()` on an empty directory: removes the directory entry. -/
def FS.rmdir (fs : FS) (d : Path) : FS :=
  { fs with dirs := fs.dirs.filter (fun q => ¬ q = d) }

/-- `any(d.iterdir())`: the directory has an immediate entry (file or
subdirectory). -/
def FS.DirNonempty (fs : FS) (d : Path) : Prop :=
  (∃ e ∈ fs.files, e.1 ≠ [] ∧ parentPath e.1 = d) ∨
    (∃ q ∈ fs.dirs, q ≠ [] ∧ parentPath q = d)

instance (fs : FS) (d : Path) : Decidable (fs.DirNonempty d) := by
  unfold FS.DirNonempty; infer_instance

/-- Immediate subdirectories of `d` (the `child.is_dir()` entries of
`d.iterdir()`). -/
def FS.childDirs (fs : FS) (d : Path) : List Path :=
  fs.dirs.filter (fun q => ¬ q = [] ∧ parentPath q = d)

/-- Number of extant paths; used only to bound the collision-suffix search. -/
def FS.countPaths (fs : FS) : Nat := fs.files.length + fs.dirs.length

/-! #### Pointwise characterisation of the file-map operations -/

/-- File lookup in a raw entry list; `FS.lookupFile` unfolds to this. -/
def lookupEntries (l : List (Path × Nat)) (p : Path) : Option Nat :=
  (l.find? (fun e => e.1 = p)).map (·.2)

/-- Sanity conditions satisfied by any real filesystem tree: the directory
set is ancestor-closed, every strict ancestor of a file is a directory, no
path is both file and directory, and the directory list is duplicate-free.
(Stated over the underlying lists so that the property is decidable on
concrete states.) -/
structure FS.WF (fs : FS) : Prop where
  dirsClosed : ∀ q ∈ fs.dirs, ∀ r ∈ q.inits, r ∈ fs.dirs
  fileAncestorDirs : ∀ e ∈ fs.files, ∀ r ∈ e.1.inits, r ≠ e.1 → r ∈ fs.dirs
  filesNotDirs : ∀ e ∈ fs.files, e.1 ∉ fs.dirs
  nodupDirs : fs.dirs.Nodup

instance (fs : FS) : Decidable fs.WF :=
  decidable_of_iff
    ((∀ q ∈ fs.dirs, ∀ r ∈ q.inits, r ∈ fs.dirs) ∧
      (∀ e ∈ fs.files, ∀ r ∈ e.1.inits, r ≠ e.1 → r ∈ fs.dirs) ∧
      (∀ e ∈ fs.files, e.1 ∉ fs.dirs) ∧ fs.dirs.Nodup)
    ⟨fun h => ⟨h.1, h.2.1, h.2.2.1, h.2.2.2⟩,
     fun h => ⟨h.dirsClosed, h.fileAncestorDirs, h.filesNotDirs, h.nodupDirs⟩⟩

/-- Ancestor-closedness of the directory set alone (the part of `FS.WF` that
must be carried through every intermediate state). -/
def FS.DirsClosed (fs : FS) : Prop :=
  ∀ q : Path, fs.IsDir q → ∀ r : Path, r <+: q → fs.IsDir r

/-- CPython `PurePath.stem` and `PurePath.suffix` of a filename: split at the
last dot when it is neither the first nor the last character. -/
def splitStemSuffix (name : String) : String × String :=
  let l := name.data
  match (l.reverse.findIdx? (fun ch => ch = '.')).map (fun j => l.length - 1 - j) with
  | some i => if 0 < i ∧ i < l.length - 1 then (⟨l.take i⟩, ⟨l.drop i⟩) else (name, "")
  | none => (name, "")

/-- Candidate collision name `f"{stem}_{counter}{suffix}"`. -/
def mkCandName (stem suffix : String) (k : Nat) : String :=
  stem ++ "_" ++ Nat.repr k ++ suffix

/-- The collision-probing loop of `_get_unique_path`, with explicit fuel. -/
def getUniquePathAux (fs : FS) (parent : Path) (stem suffix : String) :
    Nat → Nat → Path
  | 0, k => parent ++ [mkCandName stem suffix k]
  | fuel + 1, k =>
    if fs.Present (parent ++ [mkCandName stem suffix k]) then
      getUniquePathAux fs parent stem suffix fuel (k + 1)
    else parent ++ [mkCandName stem suffix k]

/-- `FileMover._get_unique_path`: return the path unchanged when nothing
exists there, otherwise probe `stem_1`, `stem_2`, … until a free name. -/
def FS.getUniquePath (fs : FS) (p : Path) : Path :=
  if ¬ fs.Present p then p
  else
    getUniquePathAux fs (parentPath p) (splitStemSuffix (pathName p)).1
      (splitStemSuffix (pathName p)).2 (fs.countPaths + 1) 1

/-- Every extant path of the filesystem, as a list of length `countPaths`. -/
def FS.allPaths (fs : FS) : List Path := fs.files.map Prod.fst ++ fs.dirs

/-- `categories.Category`. -/
structure Category where
  name : String
  path : Path
  description : String
  extensions : List String
  keywords : List String
deriving DecidableEq

/-- The `misc` registry entry (`CATEGORIES["misc"]`). -/
def miscCategory : Category :=
  ⟨"Miscellaneous", ["Misc"], "Uncategorized files", [], []⟩

/-- `categories.CATEGORIES`, in declaration (= dict iteration) order. -/
def CATEGORIES : List (String × Category) := [
  ("work", ⟨"Work Documents", ["Documents", "Work"],
    "Work-related documents, reports, presentations",
    [".doc", ".docx", ".ppt", ".pptx", ".xls", ".xlsx", ".odt", ".ods", ".odp"],
    ["report", "meeting", "project", "proposal", "invoice", "contract", "agenda", "memo"]⟩),
  ("personal", ⟨"Personal Documents", ["Documents", "Personal"],
    "Personal documents, letters, notes", [],
    ["personal", "diary", "journal", "letter", "note", "todo", "list"]⟩),
  ("financial", ⟨"Financial Documents", ["Documents", "Financial"],
    "Financial records, receipts, tax documents", [],
    ["tax", "receipt", "invoice", "bank", "statement", "budget", "expense", "payment", "salary"]⟩),
  ("legal", ⟨"Legal Documents", ["Documents", "Legal"],
    "Legal documents, contracts, agreements", [],
    ["legal", "contract", "agreement", "license", "terms", "policy", "nda", "court", "law"]⟩),
  ("ebooks", ⟨"eBooks", ["Documents", "eBooks"],
    "Electronic books and publications",
    [".epub", ".mobi", ".azw", ".azw3"],
    ["ebook", "book", "novel", "guide", "manual"]⟩),
  ("pdf", ⟨"PDFs", ["Documents", "PDFs"], "PDF documents", [".pdf"], []⟩),
  ("python", ⟨"Python Code", ["Code", "Python"], "Python source files",
    [".py", ".pyw", ".pyx", ".pxd", ".pyi"], []⟩),
  ("javascript", ⟨"JavaScript Code", ["Code", "JavaScript"],
    "JavaScript and TypeScript files",
    [".js", ".jsx", ".ts", ".tsx", ".mjs", ".cjs"], []⟩),
  ("web", ⟨"Web Files", ["Code", "Web"], "HTML, CSS, and web assets",
    [".html", ".htm", ".css", ".scss", ".sass", ".less", ".svg"], []⟩),
  ("code_other", ⟨"Other Code", ["Code", "Other"], "Other programming languages",
    [".java", ".c", ".cpp", ".h", ".hpp", ".cs", ".go", ".rs", ".rb",
     ".php", ".swift", ".kt", ".scala", ".r", ".m", ".mm", ".sql",
     ".sh", ".bash", ".zsh", ".ps1", ".bat", ".cmd"], []⟩),
  ("config", ⟨"Config Files", ["Code", "Config"], "Configuration and settings files",
    [".json", ".yaml", ".yml", ".toml", ".ini", ".cfg", ".conf",
     ".env", ".properties", ".xml"],
    ["config", "settings", "preferences"]⟩),
  ("photos", ⟨"Photos", ["Media", "Photos"], "Image files and photographs",
    [".jpg", ".jpeg", ".png", ".gif", ".bmp", ".webp", ".heic", ".heif",
     ".raw", ".cr2", ".nef", ".arw"],
    ["photo", "image", "picture", "screenshot", "img", "pic"]⟩),
  ("videos", ⟨"Videos", ["Media", "Videos"], "Video files",
    [".mp4", ".avi", ".mkv", ".mov", ".wmv", ".flv", ".webm", ".m4v",
     ".mpeg", ".mpg", ".3gp"],
    ["video", "movie", "clip", "recording"]⟩),
  ("music", ⟨"Music", ["Media", "Music"], "Audio and music files",
    [".mp3", ".wav", ".flac", ".aac", ".ogg", ".wma", ".m4a", ".aiff", ".alac"],
    ["music", "song", "audio", "track", "podcast"]⟩),
  ("graphics", ⟨"Graphics", ["Media", "Graphics"], "Design and graphics files",
    [".psd", ".ai", ".eps", ".indd", ".sketch", ".fig", ".xd", ".afdesign", ".afphoto"],
    ["design", "graphic", "logo", "icon", "banner"]⟩),
  ("archives", ⟨"Archives", ["Archives"], "Compressed files and archives",
    [".zip", ".rar", ".7z", ".tar", ".gz", ".bz2", ".xz", ".tgz", ".tbz2"],
    ["backup", "archive"]⟩),
  ("data", ⟨"Data Files", ["Data"], "Data files, spreadsheets, databases",
    [".csv", ".tsv", ".parquet", ".sqlite", ".db", ".mdb", ".accdb"],
    ["data", "dataset", "export", "import"]⟩),
  ("installers", ⟨"Installers", ["Applications", "Installers"],
    "Application installers and packages",
    [".dmg", ".pkg", ".msi", ".exe", ".deb", ".rpm", ".appimage", ".snap"],
    ["install", "setup", "installer"]⟩),
  ("misc", miscCategory)]

/-- Python `str.lower()`, character-wise (agrees with the source's usage:
category keys, extensions and keywords are ASCII). -/
def strLower (s : String) : String := ⟨s.data.map Char.toLower⟩

/-- `categories.get_category_by_extension`: case-insensitive extension lookup,
first match in declaration order. -/
def get_category_by_extension (extension : String) : Option Category :=
  let ext := strLower extension
  (CATEGORIES.find? (fun kc => ext ∈ kc.2.extensions)).map (·.2)

/-- `categories.get_category_by_keywords`: case-insensitive keyword substring
scan over the filename, first matching category in declaration order. -/
def get_category_by_keywords (filename : String) : Option Category :=
  let nameLower := strLower filename
  (CATEGORIES.find? (fun kc =>
    kc.2.keywords.any (fun kw => kw.data <:+: nameLower.data))).map (·.2)

/-- `categories.get_fallback_category` (`CATEGORIES["misc"]`). -/
def get_fallback_category : Category := miscCategory

/-! ### Classification engine (`analyzer.py`)

The backend (Ollama) is an external collaborator: the cached availability
probe and the per-call reply are explicit inputs.  A backend exception or a
reply whose JSON cannot be extracted collapse to `BackendOutcome.failed`
(`_analyze_with_ai` returns `None` for those); otherwise the reply is the
parsed JSON object, field by field. -/

/-- `scanner.FileInfo` (size, timestamps omitted: unused by the embedded
operations). -/
structure FileInfo where
  path : Path
  name : String
  extension : String
  content : Option String
  mime_type : Option String
deriving DecidableEq

/-- `analyzer.AnalysisResult`; the source's float literals are exact decimal
fractions, kept as rationals. -/
structure AnalysisResult where
  file_info : FileInfo
  category : Category
  confidence : ℚ
  reasoning : String
  method : String
deriving DecidableEq

/-- A JSON `confidence` field value: a number, or a value `float()` rejects
(the raised `ValueError` discards the model tier for that file). -/
inductive JsonNumber where
  | num (q : ℚ)
  | notNum
deriving DecidableEq

/-- The JSON object parsed out of a backend reply: its three expected fields,
each possibly absent. -/
structure AiReply where
  categoryField : Option String
  confidenceField : Option JsonNumber
  reasoningField : Option String
deriving DecidableEq

/-- Outcome of one backend call as `_analyze_with_ai` sees it. -/
inductive BackendOutcome where
  | failed
  | ok (reply : AiReply)
deriving DecidableEq

/-- `FileAnalyzer._parse_ai_response` from the extracted JSON object on:
`category` defaulting and lower-casing, `confidence` defaulting to `0.8` and
`float()` conversion, `reasoning` defaulting, category validation (exact key
match, then substring containment either way, else discard the tier), and the
`min(confidence, 1.0)` clamp. -/
def parse_ai_response (file_info : FileInfo) (reply : AiReply) :
    Option AnalysisResult :=
  let categoryName := strLower (reply.categoryField.getD "")
  match (match reply.confidenceField with
         | none => some ((8 : ℚ) / 10)
         | some (JsonNumber.num q) => some q
         | some JsonNumber.notNum => none) with
  | none => none
  | some confidence =>
    let reasoning := reply.reasoningField.getD "AI classification"
    let validated : Option Category :=
      match CATEGORIES.find? (fun kc => kc.1 = categoryName) with
      | some kc => some kc.2
      | none =>
        match CATEGORIES.find? (fun kc =>
            kc.1.data <:+: categoryName.data ∨ categoryName.data <:+: kc.1.data) with
        | some kc => some kc.2
        | none => none
    match validated with
    | none => none
    | some category =>
      some ⟨file_info, category, min confidence 1, reasoning, "ai"⟩

/-- Python truthiness of `file_info.content` (`None` and `""` are falsy). -/
def contentTruthy (content : Option String) : Bool :=
  content.getD "" ≠ ""

/-- The model-tier attempt of `FileAnalyzer.analyze_file`: `_analyze_with_ai`
guarded by truthy content and the cached availability probe. -/
def modelTierResult (ollama_available : Bool) (backend : BackendOutcome)
    (file_info : FileInfo) : Option AnalysisResult :=
  if contentTruthy file_info.content && ollama_available then
    match backend with
    | BackendOutcome.failed => none
    | BackendOutcome.ok reply => parse_ai_response file_info reply
  else none

/-- `FileAnalyzer.analyze_file`: the classification cascade — model tier when
content is truthy and the availability probe succeeded, then extension,
keyword, and fallback tiers. -/
def analyze_file (ollama_available : Bool) (backend : BackendOutcome)
    (file_info : FileInfo) : AnalysisResult :=
  match modelTierResult ollama_available backend file_info with
  | some result => result
  | none =>
    match get_category_by_extension file_info.extension with
    | some category =>
        ⟨file_info, category, 9/10,
          "Matched by file extension: " ++ file_info.extension, "extension"⟩
    | none =>
      match get_category_by_keywords file_info.name with
      | some category =>
          ⟨file_info, category, 7/10, "Matched by filename keywords", "keyword"⟩
      | none =>
          ⟨file_info, get_fallback_category, 3/10,
            "No matching category found, using fallback", "fallback"⟩

/-! ### Move executor and undo engine (`mover.py`)

Paths are kept in parsed segment form; the `str(...)`/`Path(...)` round trip
of the source is the identity here.  `datetime.now()` readings are inputs.
The undo-log document is the in-memory session list (the wholesale `_save`
rewrite has no further observable effect, and the log file sits directly in
the output root, outside every category subdirectory). -/

/-- `mover.MoveOperation`. -/
structure MoveOperation where
  source : Path
  destination : Path
  category : String
  reasoning : String
  timestamp : String
deriving DecidableEq

/-- `mover.OrganizationSession`. -/
structure OrganizationSession where
  session_id : String
  timestamp : String
  source_directory : Path
  output_directory : Path
  operations : List MoveOperation
  completed : Bool
deriving DecidableEq

/-- A wall-clock reading (`datetime.now()`), to microsecond precision. -/
structure PyDateTime where
  year : Nat
  month : Nat
  day : Nat
  hour : Nat
  minute : Nat
  second : Nat
  microsecond : Nat
deriving DecidableEq

/-- Zero-padded decimal rendering, as strftime's numeric directives. -/
def padNum (w n : Nat) : String :=
  ⟨List.replicate (w - (Nat.repr n).length) '0'⟩ ++ Nat.repr n

/-- `datetime.strftime('%Y%m%d_%H%M%S')`: the session id — one-second
granularity, the microsecond field unused. -/
def sessionIdOf (t : PyDateTime) : String :=
  padNum 4 t.year ++ padNum 2 t.month ++ padNum 2 t.day ++ "_" ++
    padNum 2 t.hour ++ padNum 2 t.minute ++ padNum 2 t.second

/-- `datetime.isoformat()` (microseconds included). -/
def isoOf (t : PyDateTime) : String :=
  padNum 4 t.year ++ "-" ++ padNum 2 t.month ++ "-" ++ padNum 2 t.day ++ "T" ++
    padNum 2 t.hour ++ ":" ++ padNum 2 t.minute ++ ":" ++ padNum 2 t.second ++
    "." ++ padNum 6 t.microsecond

namespace UndoLog

/-- `UndoLog.create_session`: append a fresh incomplete session whose id is
the wall clock at one-second granularity; returns it for aliased use. -/
def createSession (log : List OrganizationSession) (t : PyDateTime)
    (sourceDir outputDir : Path) :
    List OrganizationSession × OrganizationSession :=
  let session : OrganizationSession :=
    ⟨sessionIdOf t, isoOf t, sourceDir, outputDir, [], false⟩
  (log ++ [session], session)

/-- `UndoLog.get_last_session`: scan from the newest entry backwards for a
completed session. -/
def getLastSession (log : List OrganizationSession) : Option OrganizationSession :=
  log.reverse.find? (fun s => s.completed)

/-- `UndoLog.remove_session`: drop every session whose id equals the given
session's id. -/
def removeSession (log : List OrganizationSession)
    (session : OrganizationSession) : List OrganizationSession :=
  log.filter (fun s => ¬ s.session_id = session.session_id)

/-- `UndoLog.complete_session` flips the aliased session object's flag; the
state effect is replacing that session by its completed copy. -/
def completeSession (session : OrganizationSession) : OrganizationSession :=
  { session with completed := true }

end UndoLog

namespace FileMover

/-- `FileMover.move_file`.  The active session is threaded explicitly (Python
aliases `_current_session` into the log); `now` is the `datetime.now()`
reading.  The `none` outcomes are the `except PermissionError/OSError` skip
paths, which arise deterministically from filesystem shape: a file blocking
`dest_dir.mkdir(parents=True)`, or the source file being absent when
`shutil.move` runs. -/
def moveFile (outputDir : Path) (dryRun : Bool) (fs : FS)
    (session : OrganizationSession) (r : AnalysisResult) (now : String) :
    FS × OrganizationSession × Option MoveOperation :=
  let source := r.file_info.path
  let destDir := outputDir ++ r.category.path
  let destFile := fs.getUniquePath (destDir ++ [pathName source])
  let op : MoveOperation :=
    ⟨source, destFile, r.category.name, r.reasoning, now⟩
  if dryRun then (fs, session, some op)
  else if fs.MkdirBlocked destDir then (fs, session, none)
  else
    let fs₁ := fs.mkdirParents destDir
    match fs₁.lookupFile source with
    | none => (fs₁, session, none)
    | some _ =>
        (fs₁.move source destFile,
         { session with operations := session.operations ++ [op] }, some op)

/-- `FileMover.organize_files`: apply `move_file` to each analysis result in
order, collecting the reported operations. -/
def runMoves (outputDir : Path) (dryRun : Bool) (now : String) :
    List AnalysisResult → FS → OrganizationSession →
      FS × OrganizationSession × List (Option MoveOperation)
  | [], fs, session => (fs, session, [])
  | r :: rs, fs, session =>
    let step := moveFile outputDir dryRun fs session r now
    let rest := runMoves outputDir dryRun now rs step.1 step.2.1
    (rest.1, rest.2.1, step.2.2 :: rest.2.2)

/-- One organize run: `start_session` (a no-op in dry-run mode), the moves,
`end_session` (ditto).  Returns the final filesystem, the final log, and the
reported per-file operations. -/
def organizeSession (outputDir sourceDir : Path) (t : PyDateTime) (now : String)
    (dryRun : Bool) (fs : FS) (log : List OrganizationSession)
    (results : List AnalysisResult) :
    FS × List OrganizationSession × List (Option MoveOperation) :=
  if dryRun then
    let run := runMoves outputDir true now results fs
      ⟨sessionIdOf t, isoOf t, sourceDir, outputDir, [], false⟩
    (run.1, log, run.2.2)
  else
    let created := UndoLog.createSession log t sourceDir outputDir
    let run := runMoves outputDir false now results fs created.2
    (run.1, log ++ [UndoLog.completeSession run.2.1], run.2.2)

/-- `FileMover._cleanup_empty_dirs`: post-order sweep removing directories
that ended up empty, never the output root itself.  The recursion provably
terminates within `maxDirLen + 1` levels; see `cleanupFuel`. -/
def cleanupEmptyDirs (outputDir : Path) : Nat → Path → FS → FS
  | 0, _, fs => fs
  | fuel + 1, d, fs =>
    if ¬ fs.Present d then fs
    else
      let fs₁ := (fs.childDirs d).foldl
        (fun acc c => cleanupEmptyDirs outputDir fuel c acc) fs
      if fs₁.Present d ∧ ¬ fs₁.DirNonempty d ∧ d ≠ outputDir then fs₁.rmdir d
      else fs₁

/-- Fuel bound for the cleanup sweep: one more than the longest directory
path. -/
def cleanupFuel (fs : FS) : Nat := (fs.dirs.map List.length).foldr max 0 + 1

/-- One iteration of the undo loop of `FileMover.undo_last_session`: restore
the operation if its recorded destination still exists (recreating the
source's parents), otherwise record an error and continue.  A file blocking
the parent recreation is the deterministic instance of the caught
`except Exception` failure. -/
def undoStep (acc : FS × List (Path × Path) × List String) (op : MoveOperation) :
    FS × List (Path × Path) × List String :=
  let (fs, moves, errors) := acc
  if fs.Present op.destination then
    if (∃ q ∈ (parentPath op.source).inits, fs.IsFile q) then
      (fs, moves, errors ++ ["Failed to restore " ++ pathName op.destination])
    else
      let fs₁ := fs.mkdirParents (parentPath op.source)
      (fs₁.move op.destination op.source, moves ++ [(op.destination, op.source)], errors)
  else
    (fs, moves, errors ++ ["File not found: " ++ pathName op.destination])

/-- The undo loop over a session's operations in reverse append order. -/
def undoFold (fs : FS) (ops : List MoveOperation) :
    FS × List (Path × Path) × List String :=
  ops.reverse.foldl undoStep (fs, [], [])

/-- `FileMover.undo_last_session`. -/
def undoLastSession (outputDir : Path) (fs : FS)
    (log : List OrganizationSession) :
    FS × List OrganizationSession × Bool × String × List (Path × Path) :=
  match UndoLog.getLastSession log with
  | none => (fs, log, false, "No sessions to undo", [])
  | some session =>
    let folded := undoFold fs session.operations
    let fs₂ := cleanupEmptyDirs outputDir (cleanupFuel folded.1)
      session.output_directory folded.1
    let log' := UndoLog.removeSession log session
    if folded.2.2 ≠ [] then
      (fs₂, log', false,
        "Undo completed with " ++ Nat.repr folded.2.2.length ++ " errors", folded.2.1)
    else
      (fs₂, log', true,
        "Successfully undid " ++ Nat.repr folded.2.1.length ++ " file moves", folded.2.1)

end FileMover

/-! ### Loading the persisted session log (`UndoLog._load`)

The persisted document is modelled at the parsed-JSON level.  `_load` wraps
`json.load` plus the `from_dict` conversions in
`except (json.JSONDecodeError, KeyError)`; the conversion code can also raise
`AttributeError` (no `.get` on a non-dict) and `TypeError` (`cls(**data)`
with wrong keys or a non-mapping), neither of which is caught. -/

/-- A parsed JSON value. -/
inductive Json where
  | null
  | bool (b : Bool)
  | num (q : ℚ)
  | str (s : String)
  | arr (items : List Json)
  | obj (fields : List (String × Json))


/-- Dictionary field access (`dict[...]` / `dict.get`). -/
def Json.lookup (fields : List (String × Json)) (key : String) : Option Json :=
  (fields.find? (fun f => f.1 = key)).map (·.2)

/-- Exceptions arising while converting a parsed document: `KeyError` is the
only one `_load` catches; `AttributeError`/`TypeError` escape. -/
inductive LoadExc where
  | keyError
  | uncaught


/-- `MoveOperation.from_dict` output, field values unvalidated (`cls(**data)`
accepts values of any type). -/
structure JMoveOperation where
  source : Json
  destination : Json
  category : Json
  reasoning : Json
  timestamp : Json


/-- `OrganizationSession.from_dict` output, field values unvalidated. -/
structure JSession where
  session_id : Json
  timestamp : Json
  source_directory : Json
  output_directory : Json
  operations : List JMoveOperation
  completed : Json


/-- Iterating a JSON value (`for x in value`): an array yields its items; an
empty string or empty object yields nothing; every other shape either is not
iterable (`TypeError`) or yields strings that crash the per-item conversion —
an uncaught exception in each case. -/
def jsonIterItems : Json → Except LoadExc (List Json)
  | Json.arr items => Except.ok items
  | Json.str s => if s = "" then Except.ok [] else Except.error LoadExc.uncaught
  | Json.obj [] => Except.ok ([] : List Json)
  | Json.obj (_ :: _) => Except.error LoadExc.uncaught
  | _ => Except.error LoadExc.uncaught

/-- `MoveOperation.from_dict(data)` = `cls(**data)`: `data` must be a mapping
with exactly the five expected keys (`TypeError` otherwise, uncaught). -/
def jMoveOperationFromDict : Json → Except LoadExc JMoveOperation
  | Json.obj fields =>
    match Json.lookup fields "source", Json.lookup fields "destination",
        Json.lookup fields "category", Json.lookup fields "reasoning",
        Json.lookup fields "timestamp" with
    | some s, some d, some c, some r, some t =>
        if fields.all (fun f => f.1 = "source" ∨ f.1 = "destination" ∨
            f.1 = "category" ∨ f.1 = "reasoning" ∨ f.1 = "timestamp") then
          Except.ok ⟨s, d, c, r, t⟩
        else Except.error LoadExc.uncaught
    | _, _, _, _, _ => Except.error LoadExc.uncaught
  | _ => Except.error LoadExc.uncaught

/-- `OrganizationSession.from_dict`: the operations comprehension runs first;
then the four required keys are read (a missing one raises `KeyError`, which
`_load` catches); `completed` defaults to `False`. -/
def jSessionFromDict : Json → Except LoadExc JSession
  | Json.obj fields => do
    let opsItems ← match Json.lookup fields "operations" with
      | none => Except.ok ([] : List Json)
      | some v => jsonIterItems v
    let ops ← opsItems.mapM jMoveOperationFromDict
    let sid ← match Json.lookup fields "session_id" with
      | some v => Except.ok v
      | none => Except.error LoadExc.keyError
    let ts ← match Json.lookup fields "timestamp" with
      | some v => Except.ok v
      | none => Except.error LoadExc.keyError
    let sd ← match Json.lookup fields "source_directory" with
      | some v => Except.ok v
      | none => Except.error LoadExc.keyError
    let od ← match Json.lookup fields "output_directory" with
      | some v => Except.ok v
      | none => Except.error LoadExc.keyError
    let completed := (Json.lookup fields "completed").getD (Json.bool false)
    return ⟨sid, ts, sd, od, ops, completed⟩
  | _ => Except.error LoadExc.uncaught

/-- State of the backing store as `_load` finds it. -/
inductive LogStore where
  | absent
  | unreadable
  | invalidJson
  | parsed (doc : Json)


/-- Result of constructing the `UndoLog`: the loaded session list, or an
exception escaping `__init__`. -/
inductive LoadOutcome where
  | loaded (sessions : List JSession)
  | raised


/-- `UndoLog._load`: a missing file leaves the list empty; `JSONDecodeError`
and `KeyError` are caught, resetting the list to empty; an unreadable file or
a document of unexpected shape raises an exception that escapes. -/
def undoLogLoad : LogStore → LoadOutcome
  | LogStore.absent => LoadOutcome.loaded []
  | LogStore.unreadable => LoadOutcome.raised
  | LogStore.invalidJson => LoadOutcome.loaded []
  | LogStore.parsed doc =>
    match doc with
    | Json.obj fields =>
      match (match Json.lookup fields "sessions" with
             | none => Except.ok ([] : List Json)
             | some v => jsonIterItems v) with
      | Except.error _ => LoadOutcome.raised
      | Except.ok items =>
        match items.mapM jSessionFromDict with
        | Except.ok sessions => LoadOutcome.loaded sessions
        | Except.error LoadExc.keyError => LoadOutcome.loaded []
        | Except.error LoadExc.uncaught => LoadOutcome.raised
    | _ => LoadOutcome.raised

/-! ## Claim C1: infrastructure

`RunInv outputDir fs₀ ops fs` ties an intermediate filesystem `fs` of an
organize run (and, during undo, of the reverse replay) to the initial state
`fs₀` through the logged operations `ops`: each logged destination sits under
the output root and holds exactly the content its source held in `fs₀`, each
logged source is currently absent, every other path is untouched, and the
directory set stays ancestor-closed and duplicate-free. -/

structure RunInv (outputDir : Path) (fs₀ : FS) (ops : List MoveOperation)
    (fs : FS) : Prop where
  destUnder : ∀ op ∈ ops, outputDir <+: op.destination
  srcNotUnder : ∀ op ∈ ops, ¬ outputDir <+: op.source
  destNodup : (ops.map MoveOperation.destination).Nodup
  srcNodup : (ops.map MoveOperation.source).Nodup
  srcFile₀ : ∀ op ∈ ops, (fs₀.lookupFile op.source).isSome = true
  destNotFile₀ : ∀ op ∈ ops, fs₀.lookupFile op.destination = none
  lookupDest : ∀ op ∈ ops, fs.lookupFile op.destination = fs₀.lookupFile op.source
  lookupSrc : ∀ op ∈ ops, fs.lookupFile op.source = none
  lookupOther : ∀ p : Path, (∀ op ∈ ops, p ≠ op.source ∧ p ≠ op.destination) →
    fs.lookupFile p = fs₀.lookupFile p
  closed : fs.DirsClosed
  nodupDirs : fs.dirs.Nodup


/-! ## Theorems -/

theorem toDigitsCore_eq_append (b : Nat) :
    ∀ (f n : Nat) (ds : List Char),
      Nat.toDigitsCore b f n ds = Nat.toDigitsCore b f n [] ++ ds := by
  intro f
  induction f with
  | zero => intro n ds; rfl
  | succ f ih =>
    intro n ds
    simp only [Nat.toDigitsCore]
    by_cases h : n / b = 0
    · simp [h]
    · simp only [h, if_false]
      rw [ih (n / b) [Nat.digitChar (n % b)], ih (n / b) (Nat.digitChar (n % b) :: ds)]
      simp

theorem toDigitsCore_fuel_irrel (b : Nat) (hb : 2 ≤ b) :
    ∀ (n f f' : Nat), n < f → n < f' →
      Nat.toDigitsCore b f n [] = Nat.toDigitsCore b f' n [] := by
  intro n
  induction n using Nat.strong_induction_on with
  | _ n IH =>
    intro f f' hf hf'
    match f, hf with
    | f + 1, _ =>
      match f', hf' with
      | f' + 1, _ =>
        simp only [Nat.toDigitsCore]
        by_cases h : n / b = 0
        · simp [h]
        · simp only [h, if_false]
          rw [toDigitsCore_eq_append b f (n / b), toDigitsCore_eq_append b f' (n / b)]
          have hn : 0 < n := by
            rcases Nat.eq_zero_or_pos n with h0 | h0
            · exact absurd (by simp [h0]) h
            · exact h0
          have hdiv : n / b < n := Nat.div_lt_self hn (by omega)
          rw [IH (n / b) hdiv f f' (by omega) (by omega)]

theorem decChars_lt10 (n : Nat) (h : n < 10) : decChars n = [Nat.digitChar n] := by
  have h0 : n / 10 = 0 := Nat.div_eq_of_lt h
  have h1 : n % 10 = n := Nat.mod_eq_of_lt h
  simp [decChars, Nat.toDigits, Nat.toDigitsCore, h0, h1]

theorem decChars_ge10 (n : Nat) (h : 10 ≤ n) :
    decChars n = decChars (n / 10) ++ [Nat.digitChar (n % 10)] := by
  have h0 : ¬ n / 10 = 0 := Nat.pos_iff_ne_zero.mp (Nat.div_pos h (by omega))
  have hdiv : n / 10 < n := Nat.div_lt_self (by omega) (by omega)
  show Nat.toDigitsCore 10 (n + 1) n [] = _
  simp only [Nat.toDigitsCore, h0, if_false]
  rw [toDigitsCore_eq_append 10 n (n / 10)]
  congr 1
  exact (toDigitsCore_fuel_irrel 10 (by omega) (n / 10) n (n / 10 + 1) (by omega)
    (by omega)).symm ▸ rfl

theorem decChars_ne_nil (n : Nat) : decChars n ≠ [] := by
  by_cases h : n < 10
  · simp [decChars_lt10 n h]
  · simp [decChars_ge10 n (by omega)]

theorem digitChar_inj_lt10 : ∀ m < 10, ∀ n < 10, Nat.digitChar m = Nat.digitChar n → m = n := by
  decide

theorem decChars_injective : ∀ m n : Nat, decChars m = decChars n → m = n := by
  intro m
  induction m using Nat.strong_induction_on with
  | _ m IH =>
    intro n h
    by_cases hm : m < 10
    · by_cases hn : n < 10
      · rw [decChars_lt10 m hm, decChars_lt10 n hn] at h
        exact digitChar_inj_lt10 m hm n hn (List.singleton_injective h)
      · exfalso
        rw [decChars_lt10 m hm, decChars_ge10 n (by omega)] at h
        have hlen := congrArg List.length h
        rw [List.length_append] at hlen
        simp only [List.length_singleton] at hlen
        exact decChars_ne_nil (n / 10) (List.length_eq_zero.mp (by omega))
    · by_cases hn : n < 10
      · exfalso
        rw [decChars_ge10 m (by omega), decChars_lt10 n hn] at h
        have hlen := congrArg List.length h
        rw [List.length_append] at hlen
        simp only [List.length_singleton] at hlen
        exact decChars_ne_nil (m / 10) (List.length_eq_zero.mp (by omega))
      · rw [decChars_ge10 m (by omega), decChars_ge10 n (by omega)] at h
        have h2 := List.append_inj' h (by simp)
        have hdiv : m / 10 = n / 10 :=
          IH (m / 10) (Nat.div_lt_self (by omega) (by omega)) (n / 10) h2.1
        have hmod : m % 10 = n % 10 := by
          have := List.singleton_injective h2.2
          exact digitChar_inj_lt10 (m % 10) (Nat.mod_lt m (by omega)) (n % 10)
            (Nat.mod_lt n (by omega)) this
        omega

theorem natRepr_injective : ∀ m n : Nat, Nat.repr m = Nat.repr n → m = n := by
  intro m n h
  apply decChars_injective
  have : (Nat.repr m).data = (Nat.repr n).data := by rw [h]
  simpa [Nat.repr, decChars, List.asString] using this

/-! ### Paths

A filesystem path is its list of segments; `pathName` is `PurePath.name`
(final segment) and `parentPath` is `PurePath.parent` (all but the final
segment). -/

theorem parentPath_append_singleton (p : Path) (s : String) :
    parentPath (p ++ [s]) = p := by
  simp [parentPath]

theorem pathName_append_singleton (p : Path) (s : String) :
    pathName (p ++ [s]) = s := by
  simp [pathName]

/-! ### The abstract filesystem

Files are a finite map from paths to contents (contents abstracted to `Nat`),
directories a finite set of paths.  `Path.exists()` is `FS.Present`,
`Path.is_dir()` is `FS.IsDir`. -/

theorem lookupFile_eq_lookupEntries (fs : FS) (p : Path) :
    fs.lookupFile p = lookupEntries fs.files p := rfl

theorem lookupEntries_nil (p : Path) : lookupEntries [] p = none := rfl

theorem lookupEntries_cons (q : Path) (c : Nat) (l : List (Path × Nat)) (p : Path) :
    lookupEntries ((q, c) :: l) p = if q = p then some c else lookupEntries l p := by
  by_cases h : q = p
  · simp [lookupEntries, List.find?_cons_of_pos, h]
  · simp [lookupEntries, List.find?_cons_of_neg, h]

theorem lookupEntries_filter_ne (l : List (Path × Nat)) (q p : Path) :
    lookupEntries (l.filter (fun e => ¬ e.1 = q)) p =
      if p = q then none else lookupEntries l p := by
  induction l with
  | nil => simp [lookupEntries]
  | cons e l ih =>
    obtain ⟨r, c⟩ := e
    rw [List.filter_cons]
    by_cases he : r = q
    · rw [if_neg (by simp [he]), ih]
      by_cases hp : p = q
      · rw [if_pos hp, if_pos hp]
      · rw [if_neg hp, if_neg hp, lookupEntries_cons,
          if_neg (fun hc : r = p => hp (hc ▸ he))]
    · rw [if_pos (by simp [he]), lookupEntries_cons, ih]
      by_cases hrp : r = p
      · rw [if_pos hrp]
        have hpq : ¬ p = q := fun hc => he (hrp.symm ▸ hc)
        rw [if_neg hpq, lookupEntries_cons, if_pos hrp]
      · rw [if_neg hrp]
        by_cases hp : p = q
        · rw [if_pos hp, if_pos hp]
        · rw [if_neg hp, if_neg hp, lookupEntries_cons, if_neg hrp]

theorem lookupEntries_filter_ne₂ (l : List (Path × Nat)) (q r p : Path) :
    lookupEntries (l.filter (fun e => ¬ e.1 = q ∧ ¬ e.1 = r)) p =
      if p = q ∨ p = r then none else lookupEntries l p := by
  induction l with
  | nil => simp [lookupEntries]
  | cons e l ih =>
    obtain ⟨s, c⟩ := e
    rw [List.filter_cons]
    by_cases hs : s = q ∨ s = r
    · rw [if_neg (by rcases hs with h | h <;> simp [h]), ih]
      by_cases hp : p = q ∨ p = r
      · rw [if_pos hp, if_pos hp]
      · rw [if_neg hp, if_neg hp, lookupEntries_cons,
          if_neg (fun hc : s = p => hp (hc ▸ hs))]
    · rw [if_pos (by push_neg at hs; simp [hs.1, hs.2]), lookupEntries_cons, ih]
      by_cases hsp : s = p
      · rw [if_pos hsp]
        have hpqr : ¬ (p = q ∨ p = r) := fun hc => hs (hsp.symm ▸ hc)
        rw [if_neg hpqr, lookupEntries_cons, if_pos hsp]
      · rw [if_neg hsp]
        by_cases hp : p = q ∨ p = r
        · rw [if_pos hp, if_pos hp]
        · rw [if_neg hp, if_neg hp, lookupEntries_cons, if_neg hsp]

/-- Pointwise effect of `FS.removeFile`. -/
theorem lookupFile_removeFile (fs : FS) (q p : Path) :
    (fs.removeFile q).lookupFile p = if p = q then none else fs.lookupFile p := by
  simpa [FS.removeFile, lookupFile_eq_lookupEntries] using
    lookupEntries_filter_ne fs.files q p

theorem move_eq_of_lookup_some (fs : FS) (src dst : Path) (c : Nat)
    (h : fs.lookupFile src = some c) :
    fs.move src dst =
      { fs with files := (dst, c) :: fs.files.filter (fun e => ¬ e.1 = src ∧ ¬ e.1 = dst) } := by
  unfold FS.move
  rw [h]

/-- Pointwise effect of `FS.move` when the source file exists. -/
theorem lookupFile_move (fs : FS) (src dst : Path) (c : Nat)
    (h : fs.lookupFile src = some c) (p : Path) :
    (fs.move src dst).lookupFile p =
      if p = dst then some c else if p = src then none else fs.lookupFile p := by
  rw [move_eq_of_lookup_some fs src dst c h]
  rw [lookupFile_eq_lookupEntries]
  show lookupEntries ((dst, c) :: fs.files.filter (fun e => ¬ e.1 = src ∧ ¬ e.1 = dst)) p = _
  rw [lookupEntries_cons, lookupEntries_filter_ne₂]
  by_cases hd : p = dst
  · rw [if_pos hd.symm, if_pos hd]
  · rw [if_neg (fun hc : dst = p => hd hc.symm), if_neg hd]
    by_cases hsrc : p = src
    · rw [if_pos (Or.inl hsrc), if_pos hsrc]
    · rw [if_neg (by tauto), if_neg hsrc, lookupFile_eq_lookupEntries]

/-- `FS.move` with a missing source is a no-op (the raised `OSError` is caught
by the caller). -/
theorem move_of_lookup_none (fs : FS) (src dst : Path)
    (h : fs.lookupFile src = none) : fs.move src dst = fs := by
  unfold FS.move
  rw [h]

/-- `FS.mkdirParents` touches no files. -/
theorem files_mkdirParents (fs : FS) (d : Path) :
    (fs.mkdirParents d).files = fs.files := rfl

/-- `FS.rmdir` touches no files. -/
theorem files_rmdir (fs : FS) (d : Path) : (fs.rmdir d).files = fs.files := rfl

/-- `FS.move` preserves the directory set. -/
theorem dirs_move (fs : FS) (src dst : Path) : (fs.move src dst).dirs = fs.dirs := by
  unfold FS.move
  cases fs.lookupFile src <;> rfl

theorem IsDir_mkdirParents (fs : FS) (d q : Path) :
    (fs.mkdirParents d).IsDir q ↔ fs.IsDir q ∨ q <+: d := by
  simp only [FS.IsDir, FS.mkdirParents, List.mem_append, List.mem_filter,
    List.mem_inits, decide_not, Bool.not_eq_true', decide_eq_false_iff_not]
  constructor
  · rintro (h | ⟨h1, _⟩)
    · exact Or.inl h
    · exact Or.inr h1
  · rintro (h | h)
    · exact Or.inl h
    · by_cases hq : q ∈ fs.dirs
      · exact Or.inl hq
      · exact Or.inr ⟨h, hq⟩

theorem IsDir_rmdir (fs : FS) (d q : Path) :
    (fs.rmdir d).IsDir q ↔ fs.IsDir q ∧ q ≠ d := by
  simp [FS.IsDir, FS.rmdir, List.mem_filter]

theorem IsDir_move (fs : FS) (src dst : Path) (q : Path) :
    (fs.move src dst).IsDir q ↔ fs.IsDir q := by
  simp [FS.IsDir, dirs_move]

theorem IsFile_iff_lookup_isSome (fs : FS) (p : Path) :
    fs.IsFile p ↔ (fs.lookupFile p).isSome = true := Iff.rfl

theorem lookupFile_mkdirParents (fs : FS) (d p : Path) :
    (fs.mkdirParents d).lookupFile p = fs.lookupFile p := rfl

theorem IsFile_mkdirParents (fs : FS) (d p : Path) :
    (fs.mkdirParents d).IsFile p ↔ fs.IsFile p := Iff.rfl

theorem lookupFile_rmdir (fs : FS) (d p : Path) :
    (fs.rmdir d).lookupFile p = fs.lookupFile p := rfl

/-! #### Sanity conditions on filesystem states

`FS.WF` collects the shape facts every real on-disk tree satisfies: the
directory set is closed under taking ancestors, every strict ancestor of a
regular file is a directory, and no path is both a file and a directory. -/

theorem IsFile_exists_entry (fs : FS) (p : Path) (h : fs.IsFile p) :
    ∃ e ∈ fs.files, e.1 = p := by
  rw [FS.IsFile, FS.lookupFile] at h
  cases hf : fs.files.find? (fun e => e.1 = p) with
  | none => rw [hf] at h; simp at h
  | some e =>
    refine ⟨e, List.mem_of_find?_eq_some hf, ?_⟩
    have := List.find?_some hf
    simpa using this

theorem FS.WF.dirsClosedP {fs : FS} (h : fs.WF) :
    ∀ q : Path, fs.IsDir q → ∀ r : Path, r <+: q → fs.IsDir r :=
  fun q hq r hr => h.dirsClosed q hq r ((List.mem_inits r q).mpr hr)

theorem FS.WF.fileAncestorDirsP {fs : FS} (h : fs.WF) :
    ∀ p : Path, fs.IsFile p → ∀ r : Path, r <+: p → r ≠ p → fs.IsDir r := by
  intro p hp r hr hne
  obtain ⟨e, he, hep⟩ := IsFile_exists_entry fs p hp
  exact h.fileAncestorDirs e he r (by rw [hep]; exact (List.mem_inits r p).mpr hr)
    (by rw [hep]; exact hne)

theorem FS.WF.filesNotDirsP {fs : FS} (h : fs.WF) :
    ∀ p : Path, fs.IsFile p → ¬ fs.IsDir p := by
  intro p hp hd
  obtain ⟨e, he, hep⟩ := IsFile_exists_entry fs p hp
  exact h.filesNotDirs e he (by rw [hep]; exact hd)

theorem DirsClosed_mkdirParents (fs : FS) (d : Path) (h : fs.DirsClosed) :
    (fs.mkdirParents d).DirsClosed := by
  intro q hq r hr
  rw [IsDir_mkdirParents] at hq ⊢
  rcases hq with hq | hq
  · exact Or.inl (h q hq r hr)
  · exact Or.inr (hr.trans hq)

theorem DirsClosed_move (fs : FS) (src dst : Path) (h : fs.DirsClosed) :
    (fs.move src dst).DirsClosed := by
  intro q hq r hr
  rw [IsDir_move] at hq ⊢
  exact h q hq r hr

/-- A strict extension of `d` decomposes as `d ++ x :: t`; its one-longer
truncation is a nonempty child path of `d` sitting below the extension. -/
theorem exists_child_of_ssubpath {d q : Path} (hpre : d <+: q) (hne : d ≠ q) :
    ∃ t : Path, t <+: q ∧ t ≠ [] ∧ parentPath t = d := by
  obtain ⟨s, rfl⟩ := hpre
  match s with
  | [] => exact absurd (by simp) hne
  | x :: s =>
    refine ⟨d ++ [x], ⟨s, by simp⟩, by simp, parentPath_append_singleton d x⟩

/-- Removing a childless directory preserves ancestor-closedness. -/
theorem DirsClosed_rmdir (fs : FS) (d : Path) (h : fs.DirsClosed)
    (hchildless : ∀ q : Path, fs.IsDir q → q ≠ [] → parentPath q ≠ d) :
    (fs.rmdir d).DirsClosed := by
  intro q hq r hr
  rw [IsDir_rmdir] at hq ⊢
  refine ⟨h q hq.1 r hr, ?_⟩
  rintro rfl
  rcases eq_or_ne r q with rfl | hne
  · exact hq.2 rfl
  · obtain ⟨t, ht, htne, htp⟩ := exists_child_of_ssubpath hr hne
    exact hchildless t (h q hq.1 t ht) htne htp

/-- The prefixes of a list are pairwise distinct (their lengths differ). -/
theorem inits_nodup : ∀ (l : Path), l.inits.Nodup := by
  intro l
  induction l with
  | nil => simp
  | cons a l ih =>
    rw [List.inits_cons]
    refine List.Nodup.cons ?_ (ih.map (fun x y h => by injection h))
    simp only [List.mem_map]
    rintro ⟨x, _, hx⟩
    exact List.cons_ne_nil a x hx

theorem nodupDirs_mkdirParents (fs : FS) (d : Path) (h : fs.dirs.Nodup) :
    (fs.mkdirParents d).dirs.Nodup := by
  refine List.Nodup.append h ((inits_nodup d).filter _) ?_
  intro q hq hq'
  rw [List.mem_filter] at hq'
  have := hq'.2
  simp only [decide_not, Bool.not_eq_true', decide_eq_false_iff_not] at this
  exact this hq

theorem nodupDirs_rmdir (fs : FS) (d : Path) (h : fs.dirs.Nodup) :
    (fs.rmdir d).dirs.Nodup := h.filter _

theorem nodupDirs_move (fs : FS) (src dst : Path) (h : fs.dirs.Nodup) :
    (fs.move src dst).dirs.Nodup := by
  rw [dirs_move]
  exact h

/-- Every member's measure is bounded by the `foldr max` of the measures. -/
theorem length_le_foldr_max : ∀ (l : List Path) (q : Path), q ∈ l →
    q.length ≤ (l.map List.length).foldr max 0 := by
  intro l
  induction l with
  | nil => intro q hq; cases hq
  | cons a l ih =>
    intro q hq
    rcases List.mem_cons.mp hq with rfl | hq
    · simp only [List.map_cons, List.foldr_cons]
      exact Nat.le_max_left _ _
    · simp only [List.map_cons, List.foldr_cons]
      exact (ih q hq).trans (Nat.le_max_right _ _)

/-- An immediate subdirectory decomposes as its parent plus one segment. -/
theorem childDir_eq_parent_append (q d : Path) (hne : q ≠ [])
    (hp : parentPath q = d) : ∃ x : String, q = d ++ [x] := by
  refine ⟨q.getLast hne, ?_⟩
  rw [← hp]
  exact (List.dropLast_append_getLast hne).symm

/-! ### Collision resolution (`FileMover._get_unique_path`)

Candidate names are `f"{stem}_{counter}{suffix}"` for `counter = 1, 2, …`; the
loop stops at the first name not present on the filesystem.  The Python
`while True` loop terminates because candidate names are pairwise distinct and
only finitely many paths exist; the fuel `fs.countPaths + 1` provably
suffices. -/

theorem mkCandName_injective (stem suffix : String) (k₁ k₂ : Nat)
    (h : mkCandName stem suffix k₁ = mkCandName stem suffix k₂) : k₁ = k₂ := by
  apply natRepr_injective
  apply String.ext
  have hd := congrArg String.data h
  simp only [mkCandName, String.data_append] at hd
  exact List.append_cancel_left (List.append_cancel_right hd)

theorem length_allPaths (fs : FS) : fs.allPaths.length = fs.countPaths := by
  simp [FS.allPaths, FS.countPaths]

theorem Present_mem_allPaths (fs : FS) (p : Path) (h : fs.Present p) :
    p ∈ fs.allPaths := by
  rcases h with h | h
  · rw [FS.IsFile, FS.lookupFile] at h
    cases hfind : fs.files.find? (fun e => e.1 = p) with
    | none => rw [hfind] at h; simp at h
    | some e =>
      have hmem := List.mem_of_find?_eq_some hfind
      have heq : e.1 = p := by
        have := List.find?_some hfind
        simpa using this
      exact List.mem_append.mpr (Or.inl (heq ▸ List.mem_map_of_mem Prod.fst hmem))
  · exact List.mem_append.mpr (Or.inr h)

/-- Pigeonhole: among `countPaths + 1` pairwise-distinct candidate paths, one
is not present. -/
theorem exists_free_candidate (fs : FS) (parent : Path) (stem suffix : String)
    (k : Nat) :
    ∃ j, k ≤ j ∧ j < k + (fs.countPaths + 1) ∧
      ¬ fs.Present (parent ++ [mkCandName stem suffix j]) := by
  by_contra hall
  push_neg at hall
  set N := fs.countPaths + 1 with hN
  have hpres : ∀ i < N, fs.Present (parent ++ [mkCandName stem suffix (k + i)]) := by
    intro i hi
    exact hall (k + i) (Nat.le_add_right k i) (by omega)
  set cands : List Path :=
    (List.range N).map (fun i => parent ++ [mkCandName stem suffix (k + i)]) with hc
  have hnodup : cands.Nodup := by
    refine List.Nodup.map ?_ (List.nodup_range N)
    intro i₁ i₂ hmk
    have := mkCandName_injective stem suffix (k + i₁) (k + i₂)
      (List.singleton_injective (List.append_cancel_left hmk))
    omega
  have hsub : cands ⊆ fs.allPaths := by
    intro x hx
    rw [hc, List.mem_map] at hx
    obtain ⟨i, hi, rfl⟩ := hx
    exact Present_mem_allPaths fs _ (hpres i (List.mem_range.mp hi))
  have hlen : cands.length ≤ fs.allPaths.length :=
    (List.subperm_of_subset hnodup hsub).length_le
  rw [hc, List.length_map, List.length_range, length_allPaths] at hlen
  omega

/-- The probing loop returns the first free candidate at or after its starting
counter, provided a free candidate lies within the fuel. -/
theorem getUniquePathAux_spec (fs : FS) (parent : Path) (stem suffix : String) :
    ∀ fuel k,
      (∃ j, k ≤ j ∧ j < k + fuel ∧ ¬ fs.Present (parent ++ [mkCandName stem suffix j])) →
      ∃ m, k ≤ m ∧ ¬ fs.Present (parent ++ [mkCandName stem suffix m]) ∧
        (∀ i, k ≤ i → i < m → fs.Present (parent ++ [mkCandName stem suffix i])) ∧
        getUniquePathAux fs parent stem suffix fuel k = parent ++ [mkCandName stem suffix m] := by
  intro fuel
  induction fuel with
  | zero =>
    intro k ⟨j, hj1, hj2, _⟩
    omega
  | succ fuel ih =>
    intro k hex
    by_cases hk : fs.Present (parent ++ [mkCandName stem suffix k])
    · obtain ⟨j, hj1, hj2, hj3⟩ := hex
      have hjk : j ≠ k := fun hc => hj3 (hc ▸ hk)
      obtain ⟨m, hm1, hm2, hm3, hm4⟩ := ih (k + 1) ⟨j, by omega, by omega, hj3⟩
      refine ⟨m, by omega, hm2, ?_, ?_⟩
      · intro i hi1 hi2
        rcases Nat.eq_or_lt_of_le hi1 with rfl | hlt
        · exact hk
        · exact hm3 i hlt hi2
      · rw [getUniquePathAux, if_pos hk]
        exact hm4
    · exact ⟨k, le_refl k, hk, fun i hi1 hi2 => absurd (by omega : k < k) (lt_irrefl k),
        by rw [getUniquePathAux, if_neg hk]⟩

/-- Full characterisation of `_get_unique_path` on an occupied destination:
the result is `stem_m + suffix` in the same directory for the least counter
`m ≥ 1` whose name is free. -/
theorem getUniquePath_occupied (fs : FS) (p : Path) (h : fs.Present p) :
    ∃ m, 1 ≤ m ∧
      fs.getUniquePath p =
        parentPath p ++ [mkCandName (splitStemSuffix (pathName p)).1
          (splitStemSuffix (pathName p)).2 m] ∧
      ¬ fs.Present (fs.getUniquePath p) ∧
      ∀ i, 1 ≤ i → i < m →
        fs.Present (parentPath p ++ [mkCandName (splitStemSuffix (pathName p)).1
          (splitStemSuffix (pathName p)).2 i]) := by
  have hres : fs.getUniquePath p =
      getUniquePathAux fs (parentPath p) (splitStemSuffix (pathName p)).1
        (splitStemSuffix (pathName p)).2 (fs.countPaths + 1) 1 := by
    rw [FS.getUniquePath, if_neg (by simpa using h)]
  obtain ⟨m, hm1, hm2, hm3, hm4⟩ :=
    getUniquePathAux_spec fs (parentPath p) (splitStemSuffix (pathName p)).1
      (splitStemSuffix (pathName p)).2 (fs.countPaths + 1) 1
      (exists_free_candidate fs (parentPath p) _ _ 1)
  exact ⟨m, hm1, hres.trans hm4, by rw [hres, hm4]; exact hm2, hm3⟩

/-- The chosen destination never collides with an existing path. -/
theorem getUniquePath_not_present (fs : FS) (p : Path) :
    ¬ fs.Present (fs.getUniquePath p) := by
  by_cases h : fs.Present p
  · exact (getUniquePath_occupied fs p h).choose_spec.2.2.1
  · rw [FS.getUniquePath, if_pos (by simpa using h)]
    exact h

/-- The chosen destination is the requested path or a sibling of it. -/
theorem getUniquePath_shape (fs : FS) (p : Path) :
    fs.getUniquePath p = p ∨ ∃ s : String, fs.getUniquePath p = parentPath p ++ [s] := by
  by_cases h : fs.Present p
  · obtain ⟨m, _, hm2, _, _⟩ := getUniquePath_occupied fs p h
    exact Or.inr ⟨_, hm2⟩
  · rw [FS.getUniquePath, if_pos (by simpa using h)]
    exact Or.inl rfl

/-! ### Category registry (`categories.py`)

The registry is transcribed verbatim; the `path` field keeps the segments of
the POSIX relative path of the source (`"Documents/Work"` ↦
`["Documents", "Work"]`).  Python's `set` fields become lists: only
membership is observable in the embedded operations. -/

/-! ## Supporting lemmas about the classification cascade -/

theorem parse_ai_response_method (file_info : FileInfo) (reply : AiReply)
    (result : AnalysisResult)
    (h : parse_ai_response file_info reply = some result) :
    result.method = "ai" := by
  unfold parse_ai_response at h
  split at h
  · exact absurd h (by simp)
  · simp only [] at h
    split at h
    · exact absurd h (by simp)
    · rw [← Option.some.inj h]

theorem modelTierResult_method (avail : Bool) (backend : BackendOutcome)
    (fi : FileInfo) (result : AnalysisResult)
    (h : modelTierResult avail backend fi = some result) : result.method = "ai" := by
  unfold modelTierResult at h
  split at h
  · cases backend with
    | failed => exact absurd h (by simp)
    | ok reply => exact parse_ai_response_method fi reply result h
  · exact absurd h (by simp)

theorem get_category_by_extension_mem (extension : String) (cat : Category)
    (h : get_category_by_extension extension = some cat) :
    strLower extension ∈ cat.extensions := by
  unfold get_category_by_extension at h
  simp only [] at h
  cases hf : CATEGORIES.find? (fun kc => strLower extension ∈ kc.2.extensions) with
  | none => rw [hf] at h; simp at h
  | some kc =>
    rw [hf] at h
    simp only [Option.map_some'] at h
    have hp := List.find?_some hf
    simp only [decide_eq_true_eq] at hp
    rw [← Option.some.inj h]
    exact hp

/-! ## Claim C4 -/

/-- Claim C4 at the failing input: the model tier accepts this backend reply
(valid category `work`, raw confidence −0.5) and returns confidence −0.5 —
`min(confidence, 1.0)` clamps only from above, so the claimed invariant
`confidence ∈ [0.0, 1.0]` fails below zero, contradicting the source's own
field documentation (`confidence: float  # 0.0 to 1.0`). -/
theorem C4_confidence_escapes_below_zero :
    parse_ai_response ⟨["home", "doc1.txt"], "doc1.txt", ".txt", some "text", none⟩
        ⟨some "work", some (JsonNumber.num (-(1 : ℚ) / 2)), some "negative"⟩ =
      some ⟨⟨["home", "doc1.txt"], "doc1.txt", ".txt", some "text", none⟩,
        ⟨"Work Documents", ["Documents", "Work"],
          "Work-related documents, reports, presentations",
          [".doc", ".docx", ".ppt", ".pptx", ".xls", ".xlsx", ".odt", ".ods", ".odp"],
          ["report", "meeting", "project", "proposal", "invoice", "contract",
            "agenda", "memo"]⟩,
        min (-(1 : ℚ) / 2) 1, "negative", "ai"⟩ ∧
    min (-(1 : ℚ) / 2) 1 < 0 :=
  ⟨rfl, by norm_num⟩

/-! ## Claim C6 -/

/-- Claim C6 counterexample: a `.py` file (registered extension) with truthy
content, an available backend, and an accepted reply is classified by the
model tier with method `"ai"` — not `"extension"` as the unconditional claim
requires. -/
theorem C6_model_tier_preempts_extension :
    (get_category_by_extension ".py").isSome = true ∧
    (analyze_file true
        (BackendOutcome.ok ⟨some "python", some (JsonNumber.num (95 / 100 : ℚ)), some "code"⟩)
        ⟨["src", "m.py"], "m.py", ".py", some "x = 1", none⟩).method ≠ "extension" :=
  ⟨by decide, by decide⟩

/-- Claim C6 (amended): whenever the model tier yields no result, a
`FileRecord` whose lower-cased extension is registered is classified by the
extension tier: method `"extension"`, confidence 0.9, and an assigned category
whose extension set contains the lower-cased extension. -/
theorem C6_extension_tier (avail : Bool) (backend : BackendOutcome)
    (fi : FileInfo) (cat : Category)
    (hmodel : modelTierResult avail backend fi = none)
    (hext : get_category_by_extension fi.extension = some cat) :
    analyze_file avail backend fi =
      ⟨fi, cat, 9/10, "Matched by file extension: " ++ fi.extension, "extension"⟩ ∧
    strLower fi.extension ∈ cat.extensions := by
  constructor
  · unfold analyze_file
    rw [hmodel, hext]
  · exact get_category_by_extension_mem fi.extension cat hext

/-- Witness for C6 (amended) at a concrete input. -/
theorem C6_extension_tier_witness :
    modelTierResult false BackendOutcome.failed
        ⟨["d", "r.pdf"], "r.pdf", ".pdf", none, none⟩ = none ∧
    get_category_by_extension ".pdf" =
      some ⟨"PDFs", ["Documents", "PDFs"], "PDF documents", [".pdf"], []⟩ ∧
    (analyze_file false BackendOutcome.failed
        ⟨["d", "r.pdf"], "r.pdf", ".pdf", none, none⟩ =
      ⟨⟨["d", "r.pdf"], "r.pdf", ".pdf", none, none⟩,
        ⟨"PDFs", ["Documents", "PDFs"], "PDF documents", [".pdf"], []⟩, 9/10,
        "Matched by file extension: " ++ ".pdf", "extension"⟩ ∧
      strLower ".pdf" ∈
        (⟨"PDFs", ["Documents", "PDFs"], "PDF documents", [".pdf"], []⟩ : Category).extensions) :=
  ⟨by decide, by decide,
    C6_extension_tier false BackendOutcome.failed
      ⟨["d", "r.pdf"], "r.pdf", ".pdf", none, none⟩
      ⟨"PDFs", ["Documents", "PDFs"], "PDF documents", [".pdf"], []⟩
      (by decide) (by decide)⟩

/-! ## Claim C7 -/

/-- Claim C7 counterexample: an accepted model-tier classification carries the
method tag `"ai"`, which is not an element of
`{model, extension, keyword, fallback}` — the source spells the model tier's
tag `"ai"`. -/
theorem C7_method_tag_is_ai_not_model :
    (analyze_file true
        (BackendOutcome.ok ⟨some "misc", some (JsonNumber.num (1 / 2 : ℚ)), none⟩)
        ⟨["t", "notes.bin"], "notes.bin", ".bin", some "hello", none⟩).method ∉
      (["model", "extension", "keyword", "fallback"] : List String) := by
  decide

/-- Claim C7 (amended): `analyze_file` is a total function — every
`FileRecord` yields exactly one result — and the method tag is always one of
`ai`, `extension`, `keyword`, `fallback` (the code's spelling of the model
tier's tag is `"ai"`). -/
theorem C7_method_tag_total (avail : Bool) (backend : BackendOutcome)
    (fi : FileInfo) :
    (analyze_file avail backend fi).method ∈
      (["ai", "extension", "keyword", "fallback"] : List String) := by
  unfold analyze_file
  cases hm : modelTierResult avail backend fi with
  | some result =>
    simp [modelTierResult_method avail backend fi result hm]
  | none =>
    cases hx : get_category_by_extension fi.extension with
    | some cat => simp
    | none =>
      cases hk : get_category_by_keywords fi.name with
      | some cat => simp
      | none => simp

/-! ## Claim C5 -/

/-- Claim C5: for a computed destination that already exists at check time,
collision resolution returns `stem_m + suffix` in the destination's directory
for the least counter `m ≥ 1` whose name is free, and the chosen path never
collides with an existing one (so no two files ever overwrite: the second
sharer gets `_1`, the next the first unused suffix). -/
theorem C5_collision_suffixes (fs : FS) (p : Path) (h : fs.Present p) :
    ∃ m, 1 ≤ m ∧
      fs.getUniquePath p =
        parentPath p ++ [mkCandName (splitStemSuffix (pathName p)).1
          (splitStemSuffix (pathName p)).2 m] ∧
      ¬ fs.Present (fs.getUniquePath p) ∧
      ∀ i, 1 ≤ i → i < m →
        fs.Present (parentPath p ++ [mkCandName (splitStemSuffix (pathName p)).1
          (splitStemSuffix (pathName p)).2 i]) :=
  getUniquePath_occupied fs p h

/-- Witness for C5: with `a.txt` and `a_1.txt` both present, the chosen
destination is `a_2.txt`. -/
theorem C5_collision_suffixes_witness :
    (FS.Present ⟨[(["out", "Misc", "a.txt"], 1), (["out", "Misc", "a_1.txt"], 2)],
        [[], ["out"], ["out", "Misc"]]⟩ ["out", "Misc", "a.txt"]) ∧
    (FS.getUniquePath ⟨[(["out", "Misc", "a.txt"], 1), (["out", "Misc", "a_1.txt"], 2)],
        [[], ["out"], ["out", "Misc"]]⟩ ["out", "Misc", "a.txt"] =
      ["out", "Misc", "a_2.txt"]) ∧
    (∃ m, 1 ≤ m ∧
      FS.getUniquePath ⟨[(["out", "Misc", "a.txt"], 1), (["out", "Misc", "a_1.txt"], 2)],
          [[], ["out"], ["out", "Misc"]]⟩ ["out", "Misc", "a.txt"] =
        parentPath ["out", "Misc", "a.txt"] ++
          [mkCandName (splitStemSuffix (pathName ["out", "Misc", "a.txt"])).1
            (splitStemSuffix (pathName ["out", "Misc", "a.txt"])).2 m] ∧
      ¬ FS.Present ⟨[(["out", "Misc", "a.txt"], 1), (["out", "Misc", "a_1.txt"], 2)],
          [[], ["out"], ["out", "Misc"]]⟩
        (FS.getUniquePath ⟨[(["out", "Misc", "a.txt"], 1), (["out", "Misc", "a_1.txt"], 2)],
          [[], ["out"], ["out", "Misc"]]⟩ ["out", "Misc", "a.txt"]) ∧
      ∀ i, 1 ≤ i → i < m →
        FS.Present ⟨[(["out", "Misc", "a.txt"], 1), (["out", "Misc", "a_1.txt"], 2)],
            [[], ["out"], ["out", "Misc"]]⟩
          (parentPath ["out", "Misc", "a.txt"] ++
            [mkCandName (splitStemSuffix (pathName ["out", "Misc", "a.txt"])).1
              (splitStemSuffix (pathName ["out", "Misc", "a.txt"])).2 i])) :=
  ⟨by decide, by decide,
    C5_collision_suffixes
      ⟨[(["out", "Misc", "a.txt"], 1), (["out", "Misc", "a_1.txt"], 2)],
        [[], ["out"], ["out", "Misc"]]⟩ ["out", "Misc", "a.txt"] (by decide)⟩

/-! ## Claim C8 -/

/-- Claim C8 counterexample: a persisted log that is valid JSON but a
top-level array fails to convert, and `_load` raises `AttributeError` (a list
has no `.get`) instead of initializing the session list empty; an OS-level
read failure (e.g. `PermissionError` from `open`) likewise escapes the
`except (json.JSONDecodeError, KeyError)` clause. -/
theorem C8_malformed_doc_raises :
    undoLogLoad (LogStore.parsed (Json.arr [])) = LoadOutcome.raised ∧
    undoLogLoad LogStore.unreadable = LoadOutcome.raised :=
  ⟨rfl, rfl⟩

/-- Claim C8 (amended): a missing file initializes the log empty, a document
`json.load` rejects (`JSONDecodeError`) initializes it empty, and so does a
well-shaped document whose session object lacks a required key (`KeyError`,
caught); but other malformed shapes — e.g. a top-level array — and unreadable
files raise exceptions that escape. -/
theorem C8_load_corruption_policy :
    undoLogLoad LogStore.absent = LoadOutcome.loaded [] ∧
    undoLogLoad LogStore.invalidJson = LoadOutcome.loaded [] ∧
    (∀ fields : List (String × Json),
      Json.lookup fields "operations" = none →
      Json.lookup fields "session_id" = none →
      undoLogLoad (LogStore.parsed (Json.obj [("sessions",
        Json.arr [Json.obj fields])])) = LoadOutcome.loaded []) := by
  refine ⟨rfl, rfl, ?_⟩
  intro fields hops hsid
  have hsess : jSessionFromDict (Json.obj fields) = Except.error LoadExc.keyError := by
    simp only [jSessionFromDict, hops, hsid]
    rfl
  have houter : undoLogLoad (LogStore.parsed (Json.obj
      [("sessions", Json.arr [Json.obj fields])])) =
      match [Json.obj fields].mapM jSessionFromDict with
      | Except.ok sessions => LoadOutcome.loaded sessions
      | Except.error LoadExc.keyError => LoadOutcome.loaded []
      | Except.error LoadExc.uncaught => LoadOutcome.raised := rfl
  rw [houter]
  have hm : ([Json.obj fields].mapM jSessionFromDict) = Except.error LoadExc.keyError := by
    simp only [List.mapM, List.mapM.loop, hsess]
    rfl
  rw [hm]

/-- Witness for C8 (amended): the empty session object lacks every key. -/
theorem C8_load_corruption_policy_witness :
    Json.lookup [] "operations" = none ∧ Json.lookup [] "session_id" = none ∧
    undoLogLoad (LogStore.parsed (Json.obj [("sessions", Json.arr [Json.obj []])])) =
      LoadOutcome.loaded [] :=
  ⟨rfl, rfl, C8_load_corruption_policy.2.2 [] rfl rfl⟩

/-! ## Claim C9 -/

/-- Claim C9: with no completed session in the log, undo returns failure, the
explanatory message, and no restored files, and changes neither the
filesystem nor the log. -/
theorem C9_undo_empty_log (outputDir : Path) (fs : FS)
    (log : List OrganizationSession)
    (h : UndoLog.getLastSession log = none) :
    FileMover.undoLastSession outputDir fs log =
      (fs, log, false, "No sessions to undo", []) := by
  unfold FileMover.undoLastSession
  rw [h]

/-- Witness for C9 on the empty log. -/
theorem C9_undo_empty_log_witness :
    UndoLog.getLastSession ([] : List OrganizationSession) = none ∧
    FileMover.undoLastSession ["out"] ⟨[(["s", "a"], 1)], [[], ["s"]]⟩ [] =
      (⟨[(["s", "a"], 1)], [[], ["s"]]⟩, [], false, "No sessions to undo", []) :=
  ⟨rfl, C9_undo_empty_log ["out"] ⟨[(["s", "a"], 1)], [[], ["s"]]⟩ [] rfl⟩

/-! ## Claim C10 -/

/-- Claim C10: `remove_session` deletes every session whose id equals the
given session's id, not only the given object; ids come from the wall clock
at one-second granularity, so two sessions created within the same second
share an id, and a single undo of the later one removes both records from the
log. -/
theorem C10_shared_ids_removed_together
    (log₀ : List OrganizationSession) (fs : FS) (outputDir : Path)
    (src₁ out₁ src₂ out₂ : Path) (t₁ t₂ : PyDateTime)
    (hsec : t₁.year = t₂.year ∧ t₁.month = t₂.month ∧ t₁.day = t₂.day ∧
      t₁.hour = t₂.hour ∧ t₁.minute = t₂.minute ∧ t₁.second = t₂.second) :
    (∀ (log : List OrganizationSession) (sess s : OrganizationSession),
        s ∈ UndoLog.removeSession log sess ↔
          s ∈ log ∧ s.session_id ≠ sess.session_id) ∧
    sessionIdOf t₁ = sessionIdOf t₂ ∧
    (∀ s ∈ (FileMover.undoLastSession outputDir fs
        (log₀ ++ [UndoLog.completeSession (UndoLog.createSession log₀ t₁ src₁ out₁).2,
          UndoLog.completeSession (UndoLog.createSession
            (UndoLog.createSession log₀ t₁ src₁ out₁).1 t₂ src₂ out₂).2])).2.1,
      s.session_id ≠ sessionIdOf t₁) := by
  obtain ⟨h1, h2, h3, h4, h5, h6⟩ := hsec
  have hrem : ∀ (log : List OrganizationSession) (sess s : OrganizationSession),
      s ∈ UndoLog.removeSession log sess ↔ s ∈ log ∧ s.session_id ≠ sess.session_id := by
    intro log sess s
    simp [UndoLog.removeSession, List.mem_filter]
  have hid : sessionIdOf t₁ = sessionIdOf t₂ := by
    unfold sessionIdOf
    rw [h1, h2, h3, h4, h5, h6]
  refine ⟨hrem, hid, ?_⟩
  set c₁ := UndoLog.completeSession (UndoLog.createSession log₀ t₁ src₁ out₁).2 with hc₁
  set c₂ := UndoLog.completeSession (UndoLog.createSession
    (UndoLog.createSession log₀ t₁ src₁ out₁).1 t₂ src₂ out₂).2 with hc₂
  have hlast : UndoLog.getLastSession (log₀ ++ [c₁, c₂]) = some c₂ := by
    unfold UndoLog.getLastSession
    rw [show (log₀ ++ [c₁, c₂]).reverse = c₂ :: c₁ :: log₀.reverse by simp]
    rw [List.find?_cons_of_pos _ (by rfl)]
  have hlog : (FileMover.undoLastSession outputDir fs (log₀ ++ [c₁, c₂])).2.1 =
      UndoLog.removeSession (log₀ ++ [c₁, c₂]) c₂ := by
    unfold FileMover.undoLastSession
    rw [hlast]
    dsimp only
    split <;> rfl
  intro s hs
  rw [hlog] at hs
  have := (hrem _ c₂ s).mp hs
  have hcid : c₂.session_id = sessionIdOf t₂ := rfl
  rw [hid]
  rw [hcid] at this
  exact this.2

/-- Witness for C10: two creations 888 microseconds apart within the same
second. -/
theorem C10_shared_ids_removed_together_witness :
    ((⟨2024, 6, 1, 12, 0, 5, 111⟩ : PyDateTime).year =
        (⟨2024, 6, 1, 12, 0, 5, 999⟩ : PyDateTime).year) ∧
    ((∀ (log : List OrganizationSession) (sess s : OrganizationSession),
        s ∈ UndoLog.removeSession log sess ↔
          s ∈ log ∧ s.session_id ≠ sess.session_id) ∧
      sessionIdOf ⟨2024, 6, 1, 12, 0, 5, 111⟩ = sessionIdOf ⟨2024, 6, 1, 12, 0, 5, 999⟩ ∧
      (∀ s ∈ (FileMover.undoLastSession ["o"] ⟨[], []⟩
          ([] ++ [UndoLog.completeSession
              (UndoLog.createSession [] ⟨2024, 6, 1, 12, 0, 5, 111⟩ ["s"] ["o"]).2,
            UndoLog.completeSession (UndoLog.createSession
              (UndoLog.createSession [] ⟨2024, 6, 1, 12, 0, 5, 111⟩ ["s"] ["o"]).1
              ⟨2024, 6, 1, 12, 0, 5, 999⟩ ["s"] ["o"]).2])).2.1,
        s.session_id ≠ sessionIdOf ⟨2024, 6, 1, 12, 0, 5, 111⟩)) :=
  ⟨rfl, C10_shared_ids_removed_together [] ⟨[], []⟩ ["o"] ["s"] ["o"] ["s"] ["o"]
    ⟨2024, 6, 1, 12, 0, 5, 111⟩ ⟨2024, 6, 1, 12, 0, 5, 999⟩
    ⟨rfl, rfl, rfl, rfl, rfl, rfl⟩⟩

/-! ## Claim C3 -/

/-- Claim C3 counterexample: two files both named `a.txt`, classified to the
same category, organized into an empty output tree — the dry-run plan gives
both the base destination, the real run gives the second `a_1.txt`: dry-run
does not compute the same destination plan as a real run from the same
initial filesystem state. -/
theorem C3_dry_plan_can_diverge :
    (FileMover.runMoves ["out"] true "now"
        [⟨⟨["s", "a.txt"], "a.txt", ".txt", none, none⟩, miscCategory, 3/10,
            "no match", "fallback"⟩,
          ⟨⟨["t", "a.txt"], "a.txt", ".txt", none, none⟩, miscCategory, 3/10,
            "no match", "fallback"⟩]
        ⟨[(["s", "a.txt"], 1), (["t", "a.txt"], 2)], [[], ["s"], ["t"]]⟩
        ⟨"sid", "ts", ["s"], ["out"], [], false⟩).2.2 ≠
      (FileMover.runMoves ["out"] false "now"
        [⟨⟨["s", "a.txt"], "a.txt", ".txt", none, none⟩, miscCategory, 3/10,
            "no match", "fallback"⟩,
          ⟨⟨["t", "a.txt"], "a.txt", ".txt", none, none⟩, miscCategory, 3/10,
            "no match", "fallback"⟩]
        ⟨[(["s", "a.txt"], 1), (["t", "a.txt"], 2)], [[], ["s"], ["t"]]⟩
        ⟨"sid", "ts", ["s"], ["out"], [], false⟩).2.2 := by
  decide

/-- Claim C3 (amended): a dry run performs zero filesystem mutations and
creates no Session-Log entry (no session created, nothing appended), and for
each single file the real run, when its move succeeds, records exactly the
operation the dry run computes from the same pre-move state; a multi-file
dry-run plan, however, can diverge from the real run's destinations because
real moves change the filesystem consulted by later collision checks. -/
theorem C3_dry_run_zero_mutation :
    (∀ (outputDir : Path) (now : String) (results : List AnalysisResult)
        (fs : FS) (sess : OrganizationSession),
      (FileMover.runMoves outputDir true now results fs sess).1 = fs ∧
      (FileMover.runMoves outputDir true now results fs sess).2.1 = sess) ∧
    (∀ (outputDir sourceDir : Path) (t : PyDateTime) (now : String) (fs : FS)
        (log : List OrganizationSession) (results : List AnalysisResult),
      (FileMover.organizeSession outputDir sourceDir t now true fs log results).1 = fs ∧
      (FileMover.organizeSession outputDir sourceDir t now true fs log results).2.1 = log) ∧
    (∀ (outputDir : Path) (now : String) (fs : FS) (sess : OrganizationSession)
        (r : AnalysisResult) (op : MoveOperation),
      (FileMover.moveFile outputDir false fs sess r now).2.2 = some op →
      (FileMover.moveFile outputDir true fs sess r now).2.2 = some op) := by
  have hdry : ∀ (outputDir : Path) (now : String) (results : List AnalysisResult)
      (fs : FS) (sess : OrganizationSession),
      (FileMover.runMoves outputDir true now results fs sess).1 = fs ∧
      (FileMover.runMoves outputDir true now results fs sess).2.1 = sess := by
    intro outputDir now results
    induction results with
    | nil => intro fs sess; exact ⟨rfl, rfl⟩
    | cons r rs ih =>
      intro fs sess
      have h1 : (FileMover.runMoves outputDir true now (r :: rs) fs sess).1 =
          (FileMover.runMoves outputDir true now rs fs sess).1 := rfl
      have h2 : (FileMover.runMoves outputDir true now (r :: rs) fs sess).2.1 =
          (FileMover.runMoves outputDir true now rs fs sess).2.1 := rfl
      rw [h1, h2]
      exact ih fs sess
  refine ⟨hdry, ?_, ?_⟩
  · intro outputDir sourceDir t now fs log results
    exact ⟨(hdry outputDir now results fs _).1, rfl⟩
  · intro outputDir now fs sess r op h
    unfold FileMover.moveFile at h ⊢
    simp only [if_true, Bool.false_eq_true, if_false] at h ⊢
    split at h
    · exact absurd h (by simp)
    · split at h
      · exact absurd h (by simp)
      · exact h

/-- Witness for C3 (amended), third conjunct: a successful real move of
`a.txt` records the same operation the dry run computes. -/
theorem C3_dry_run_zero_mutation_witness :
    (FileMover.moveFile ["out"] false
        ⟨[(["s", "a.txt"], 1)], [[], ["s"]]⟩ ⟨"sid", "ts", ["s"], ["out"], [], false⟩
        ⟨⟨["s", "a.txt"], "a.txt", ".txt", none, none⟩, miscCategory, 3/10,
          "no match", "fallback"⟩ "now").2.2 =
      some ⟨["s", "a.txt"], ["out", "Misc", "a.txt"], "Miscellaneous", "no match", "now"⟩ ∧
    (FileMover.moveFile ["out"] true
        ⟨[(["s", "a.txt"], 1)], [[], ["s"]]⟩ ⟨"sid", "ts", ["s"], ["out"], [], false⟩
        ⟨⟨["s", "a.txt"], "a.txt", ".txt", none, none⟩, miscCategory, 3/10,
          "no match", "fallback"⟩ "now").2.2 =
      some ⟨["s", "a.txt"], ["out", "Misc", "a.txt"], "Miscellaneous", "no match", "now"⟩ :=
  ⟨by decide, C3_dry_run_zero_mutation.2.2 ["out"] "now"
    ⟨[(["s", "a.txt"], 1)], [[], ["s"]]⟩ ⟨"sid", "ts", ["s"], ["out"], [], false⟩
    ⟨⟨["s", "a.txt"], "a.txt", ".txt", none, none⟩, miscCategory, 3/10,
      "no match", "fallback"⟩
    ⟨["s", "a.txt"], ["out", "Misc", "a.txt"], "Miscellaneous", "no match", "now"⟩
    (by decide)⟩

theorem moveFile_blocked_eq (outputDir : Path) (fs : FS)
    (sess : OrganizationSession) (r : AnalysisResult) (now : String)
    (h : fs.MkdirBlocked (outputDir ++ r.category.path)) :
    FileMover.moveFile outputDir false fs sess r now = (fs, sess, none) := by
  unfold FileMover.moveFile
  dsimp only
  rw [if_neg (by simp), if_pos h]

theorem moveFile_missing_eq (outputDir : Path) (fs : FS)
    (sess : OrganizationSession) (r : AnalysisResult) (now : String)
    (hb : ¬ fs.MkdirBlocked (outputDir ++ r.category.path))
    (hl : fs.lookupFile r.file_info.path = none) :
    FileMover.moveFile outputDir false fs sess r now =
      (fs.mkdirParents (outputDir ++ r.category.path), sess, none) := by
  unfold FileMover.moveFile
  dsimp only
  rw [if_neg (by simp), if_neg hb]
  have : (fs.mkdirParents (outputDir ++ r.category.path)).lookupFile
      r.file_info.path = none := by
    rw [lookupFile_mkdirParents]; exact hl
  rw [this]

theorem moveFile_success_eq (outputDir : Path) (fs : FS)
    (sess : OrganizationSession) (r : AnalysisResult) (now : String) (c : Nat)
    (hb : ¬ fs.MkdirBlocked (outputDir ++ r.category.path))
    (hl : fs.lookupFile r.file_info.path = some c) :
    FileMover.moveFile outputDir false fs sess r now =
      ((fs.mkdirParents (outputDir ++ r.category.path)).move r.file_info.path
          (fs.getUniquePath (outputDir ++ r.category.path ++ [pathName r.file_info.path])),
        { sess with operations := sess.operations ++
          [⟨r.file_info.path,
            fs.getUniquePath (outputDir ++ r.category.path ++ [pathName r.file_info.path]),
            r.category.name, r.reasoning, now⟩] },
        some ⟨r.file_info.path,
          fs.getUniquePath (outputDir ++ r.category.path ++ [pathName r.file_info.path]),
          r.category.name, r.reasoning, now⟩) := by
  unfold FileMover.moveFile
  dsimp only
  rw [if_neg (by simp), if_neg hb]
  have : (fs.mkdirParents (outputDir ++ r.category.path)).lookupFile
      r.file_info.path = some c := by
    rw [lookupFile_mkdirParents]; exact hl
  rw [this]

theorem not_present_lookup_none (fs : FS) (p : Path) (h : ¬ fs.Present p) :
    fs.lookupFile p = none := by
  rw [← Option.not_isSome_iff_eq_none]
  intro hs
  exact h (Or.inl hs)

/-- The computed destination sits under the output root. -/
theorem getUniquePath_under (outputDir catp : Path) (fs : FS) (name : String) :
    outputDir <+: fs.getUniquePath (outputDir ++ catp ++ [name]) := by
  have hbase : outputDir <+: outputDir ++ catp ++ [name] :=
    (List.prefix_append outputDir catp).trans (List.prefix_append _ _)
  rcases getUniquePath_shape fs (outputDir ++ catp ++ [name]) with h | ⟨s, h⟩
  · rw [h]; exact hbase
  · rw [h, parentPath_append_singleton]
    exact (List.prefix_append outputDir catp).trans (List.prefix_append _ _)

/-- The invariant is insensitive to directory creation. -/
theorem RunInv.mkdir {outputDir : Path} {fs₀ : FS} {ops : List MoveOperation}
    {fs : FS} (h : RunInv outputDir fs₀ ops fs) (d : Path) :
    RunInv outputDir fs₀ ops (fs.mkdirParents d) := by
  refine ⟨h.destUnder, h.srcNotUnder, h.destNodup, h.srcNodup, h.srcFile₀,
    h.destNotFile₀, ?_, ?_, ?_, DirsClosed_mkdirParents fs d h.closed,
    nodupDirs_mkdirParents fs d h.nodupDirs⟩
  · intro op hop; rw [lookupFile_mkdirParents]; exact h.lookupDest op hop
  · intro op hop; rw [lookupFile_mkdirParents]; exact h.lookupSrc op hop
  · intro p hp; rw [lookupFile_mkdirParents]; exact h.lookupOther p hp

/-- One real `move_file` call preserves the invariant, extending the logged
operations when the move succeeds. -/
theorem moveFile_inv (outputDir : Path) (fs₀ : FS) (fs : FS)
    (sess : OrganizationSession) (r : AnalysisResult) (now : String)
    (hr : ¬ outputDir <+: r.file_info.path)
    (hinv : RunInv outputDir fs₀ sess.operations fs) :
    RunInv outputDir fs₀
      (FileMover.moveFile outputDir false fs sess r now).2.1.operations
      (FileMover.moveFile outputDir false fs sess r now).1 := by
  by_cases hb : fs.MkdirBlocked (outputDir ++ r.category.path)
  · rw [moveFile_blocked_eq outputDir fs sess r now hb]
    exact hinv
  · cases hl : fs.lookupFile r.file_info.path with
    | none =>
      rw [moveFile_missing_eq outputDir fs sess r now hb hl]
      exact hinv.mkdir _
    | some c =>
      rw [moveFile_success_eq outputDir fs sess r now c hb hl]
      dsimp only
      set src := r.file_info.path with hsrc_def
      set destDir := outputDir ++ r.category.path with hdd_def
      set dest := fs.getUniquePath (destDir ++ [pathName src]) with hdest_def
      have hfresh : ¬ fs.Present dest := getUniquePath_not_present fs _
      have hdu : outputDir <+: dest := getUniquePath_under outputDir r.category.path fs _
      have hdestPresentOld : ∀ op' ∈ sess.operations,
          (fs.lookupFile op'.destination).isSome = true := by
        intro op' ho
        rw [hinv.lookupDest op' ho]
        exact hinv.srcFile₀ op' ho
      have hne_dest_olddest : ∀ op' ∈ sess.operations, dest ≠ op'.destination := by
        intro op' ho heq
        refine hfresh (Or.inl ?_)
        rw [FS.IsFile, heq]
        exact hdestPresentOld op' ho
      have hne_dest_oldsrc : ∀ op' ∈ sess.operations, dest ≠ op'.source := by
        intro op' ho heq
        exact hinv.srcNotUnder op' ho (by rw [← heq]; exact hdu)
      have hne_src_olddest : ∀ op' ∈ sess.operations, src ≠ op'.destination := by
        intro op' ho heq
        apply hr
        rw [heq]
        exact hinv.destUnder op' ho
      have hne_src_oldsrc : ∀ op' ∈ sess.operations, src ≠ op'.source := by
        intro op' ho heq
        rw [heq, hinv.lookupSrc op' ho] at hl
        cases hl
      have hne_src_dest : src ≠ dest := by
        intro heq
        refine hfresh (Or.inl ?_)
        rw [FS.IsFile, ← heq, hl]
        rfl
      have hsrc₀ : fs₀.lookupFile src = some c := by
        rw [← hinv.lookupOther src
          (fun op' ho => ⟨hne_src_oldsrc op' ho, hne_src_olddest op' ho⟩)]
        exact hl
      have hdest₀ : fs₀.lookupFile dest = none := by
        rw [← hinv.lookupOther dest
          (fun op' ho => ⟨hne_dest_oldsrc op' ho, hne_dest_olddest op' ho⟩)]
        exact not_present_lookup_none fs dest hfresh
      have hl₁ : (fs.mkdirParents destDir).lookupFile src = some c := by
        rw [lookupFile_mkdirParents]; exact hl
      have hmv := lookupFile_move (fs.mkdirParents destDir) src dest c hl₁
      refine ⟨?_, ?_, ?_, ?_, ?_, ?_, ?_, ?_, ?_, ?_, ?_⟩
      · intro op hop
        rcases List.mem_append.mp hop with h' | h'
        · exact hinv.destUnder op h'
        · rw [List.mem_singleton.mp h']
          exact hdu
      · intro op hop
        rcases List.mem_append.mp hop with h' | h'
        · exact hinv.srcNotUnder op h'
        · rw [List.mem_singleton.mp h']
          exact hr
      · rw [List.map_append]
        refine List.Nodup.append hinv.destNodup (List.nodup_singleton _) ?_
        intro a ha hb'
        rw [List.map_singleton, List.mem_singleton] at hb'
        rw [List.mem_map] at ha
        obtain ⟨op', ho', rfl⟩ := ha
        exact hne_dest_olddest op' ho' (by rw [hb'])
      · rw [List.map_append]
        refine List.Nodup.append hinv.srcNodup (List.nodup_singleton _) ?_
        intro a ha hb'
        rw [List.map_singleton, List.mem_singleton] at hb'
        rw [List.mem_map] at ha
        obtain ⟨op', ho', rfl⟩ := ha
        exact hne_src_oldsrc op' ho' (by rw [hb'])
      · intro op hop
        rcases List.mem_append.mp hop with h' | h'
        · exact hinv.srcFile₀ op h'
        · rw [List.mem_singleton.mp h']
          show (fs₀.lookupFile src).isSome = true
          rw [hsrc₀]
          rfl
      · intro op hop
        rcases List.mem_append.mp hop with h' | h'
        · exact hinv.destNotFile₀ op h'
        · rw [List.mem_singleton.mp h']
          exact hdest₀
      · intro op hop
        rcases List.mem_append.mp hop with h' | h'
        · rw [hmv op.destination,
            if_neg (fun hc => hne_dest_olddest op h' hc.symm),
            if_neg (fun hc => hne_src_olddest op h' hc.symm),
            lookupFile_mkdirParents]
          exact hinv.lookupDest op h'
        · rw [List.mem_singleton.mp h']
          show (_ : FS).lookupFile dest = fs₀.lookupFile src
          rw [hmv dest, if_pos rfl, hsrc₀]
      · intro op hop
        rcases List.mem_append.mp hop with h' | h'
        · rw [hmv op.source,
            if_neg (fun hc => hne_dest_oldsrc op h' hc.symm),
            if_neg (fun hc => hne_src_oldsrc op h' hc.symm),
            lookupFile_mkdirParents]
          exact hinv.lookupSrc op h'
        · rw [List.mem_singleton.mp h']
          show (_ : FS).lookupFile src = none
          rw [hmv src, if_neg hne_src_dest, if_pos rfl]
      · intro p hp
        have hpnew := hp ⟨src, dest, r.category.name, r.reasoning, now⟩
          (List.mem_append_right _ (List.mem_singleton_self _))
        rw [hmv p, if_neg hpnew.2, if_neg hpnew.1, lookupFile_mkdirParents]
        exact hinv.lookupOther p
          (fun op' ho => hp op' (List.mem_append_left _ ho))
      · exact DirsClosed_move _ _ _ (DirsClosed_mkdirParents fs destDir hinv.closed)
      · exact nodupDirs_move _ _ _ (nodupDirs_mkdirParents fs destDir hinv.nodupDirs)

/-- The whole organize loop preserves the invariant. -/
theorem runMoves_inv (outputDir : Path) (fs₀ : FS) (now : String) :
    ∀ (results : List AnalysisResult) (fs : FS) (sess : OrganizationSession),
      (∀ r ∈ results, ¬ outputDir <+: r.file_info.path) →
      RunInv outputDir fs₀ sess.operations fs →
      RunInv outputDir fs₀
        (FileMover.runMoves outputDir false now results fs sess).2.1.operations
        (FileMover.runMoves outputDir false now results fs sess).1 := by
  intro results
  induction results with
  | nil => intro fs sess _ hinv; exact hinv
  | cons r rs ih =>
    intro fs sess hr hinv
    have hstep := moveFile_inv outputDir fs₀ fs sess r now
      (hr r (List.mem_cons_self r rs)) hinv
    have h1 : (FileMover.runMoves outputDir false now (r :: rs) fs sess).1 =
        (FileMover.runMoves outputDir false now rs
          (FileMover.moveFile outputDir false fs sess r now).1
          (FileMover.moveFile outputDir false fs sess r now).2.1).1 := rfl
    have h2 : (FileMover.runMoves outputDir false now (r :: rs) fs sess).2.1 =
        (FileMover.runMoves outputDir false now rs
          (FileMover.moveFile outputDir false fs sess r now).1
          (FileMover.moveFile outputDir false fs sess r now).2.1).2.1 := rfl
    rw [h1, h2]
    exact ih _ _ (fun r' h' => hr r' (List.mem_cons_of_mem r h')) hstep

/-- `move_file` never changes the session's metadata fields. -/
theorem moveFile_session_fields (outputDir : Path) (dryRun : Bool) (fs : FS)
    (sess : OrganizationSession) (r : AnalysisResult) (now : String) :
    (FileMover.moveFile outputDir dryRun fs sess r now).2.1.output_directory =
        sess.output_directory ∧
    (FileMover.moveFile outputDir dryRun fs sess r now).2.1.completed =
        sess.completed := by
  unfold FileMover.moveFile
  dsimp only
  split
  · exact ⟨rfl, rfl⟩
  · split
    · exact ⟨rfl, rfl⟩
    · split <;> exact ⟨rfl, rfl⟩

/-- Neither does the organize loop. -/
theorem runMoves_session_fields (outputDir : Path) (dryRun : Bool) (now : String) :
    ∀ (results : List AnalysisResult) (fs : FS) (sess : OrganizationSession),
      (FileMover.runMoves outputDir dryRun now results fs sess).2.1.output_directory =
          sess.output_directory ∧
      (FileMover.runMoves outputDir dryRun now results fs sess).2.1.completed =
          sess.completed := by
  intro results
  induction results with
  | nil => intro fs sess; exact ⟨rfl, rfl⟩
  | cons r rs ih =>
    intro fs sess
    have h2 : (FileMover.runMoves outputDir dryRun now (r :: rs) fs sess).2.1 =
        (FileMover.runMoves outputDir dryRun now rs
          (FileMover.moveFile outputDir dryRun fs sess r now).1
          (FileMover.moveFile outputDir dryRun fs sess r now).2.1).2.1 := rfl
    rw [h2]
    have hstep := moveFile_session_fields outputDir dryRun fs sess r now
    have hrest := ih (FileMover.moveFile outputDir dryRun fs sess r now).1
      (FileMover.moveFile outputDir dryRun fs sess r now).2.1
    exact ⟨hrest.1.trans hstep.1, hrest.2.trans hstep.2⟩

theorem undoStep_missing (fs : FS) (moves : List (Path × Path))
    (errors : List String) (op : MoveOperation)
    (h : ¬ fs.Present op.destination) :
    FileMover.undoStep (fs, moves, errors) op =
      (fs, moves, errors ++ ["File not found: " ++ pathName op.destination]) := by
  unfold FileMover.undoStep
  dsimp only
  rw [if_neg h]

theorem undoStep_restore (fs : FS) (moves : List (Path × Path))
    (errors : List String) (op : MoveOperation)
    (h₁ : fs.Present op.destination)
    (h₂ : ¬ ∃ q ∈ (parentPath op.source).inits, fs.IsFile q) :
    FileMover.undoStep (fs, moves, errors) op =
      ((fs.mkdirParents (parentPath op.source)).move op.destination op.source,
        moves ++ [(op.destination, op.source)], errors) := by
  unfold FileMover.undoStep
  dsimp only
  rw [if_pos h₁, if_neg h₂]

theorem undoStep_blocked (fs : FS) (moves : List (Path × Path))
    (errors : List String) (op : MoveOperation)
    (h₁ : fs.Present op.destination)
    (h₂ : ∃ q ∈ (parentPath op.source).inits, fs.IsFile q) :
    FileMover.undoStep (fs, moves, errors) op =
      (fs, moves, errors ++ ["Failed to restore " ++ pathName op.destination]) := by
  unfold FileMover.undoStep
  dsimp only
  rw [if_pos h₁, if_pos h₂]

theorem parentPath_pfx (p : Path) : parentPath p <+: p := by
  rcases eq_or_ne p [] with rfl | hne
  · exact List.prefix_rfl
  · exact ⟨[p.getLast hne], List.dropLast_append_getLast hne⟩

/-- Replaying a session's operations in reverse restores the initial file
map: every destination still exists, no error is recorded, and the resulting
filesystem satisfies the empty-journal invariant — it agrees with `fs₀` on
every file. -/
theorem undo_replay (outputDir : Path) (fs₀ : FS) (hwf : fs₀.WF) :
    ∀ (ops : List MoveOperation) (fs : FS) (moves : List (Path × Path))
      (errors : List String),
      RunInv outputDir fs₀ ops fs →
      ∃ (fs' : FS) (moves' : List (Path × Path)),
        ops.reverse.foldl FileMover.undoStep (fs, moves, errors) =
          (fs', moves', errors) ∧
        RunInv outputDir fs₀ [] fs' := by
  intro ops
  induction ops using List.reverseRecOn with
  | nil =>
    intro fs moves errors hinv
    exact ⟨fs, moves, rfl, hinv⟩
  | append_singleton ops op ih =>
    intro fs moves errors hinv
    have hop : op ∈ ops ++ [op] :=
      List.mem_append_right _ (List.mem_singleton_self _)
    obtain ⟨c₀, hc₀⟩ := Option.isSome_iff_exists.mp (hinv.srcFile₀ op hop)
    have hdl : fs.lookupFile op.destination = some c₀ := by
      rw [hinv.lookupDest op hop]
      exact hc₀
    have hPresent : fs.Present op.destination := Or.inl (by
      rw [FS.IsFile, hdl]; rfl)
    have hnb : ¬ ∃ q ∈ (parentPath op.source).inits, fs.IsFile q := by
      rintro ⟨q, hq, hqf⟩
      rw [List.mem_inits] at hq
      have hqs : q <+: op.source := hq.trans (parentPath_pfx op.source)
      by_cases hcase : ∀ op' ∈ ops ++ [op], q ≠ op'.source ∧ q ≠ op'.destination
      · have hq₀ : fs₀.lookupFile q = fs.lookupFile q :=
          (hinv.lookupOther q hcase).symm
        have hqf₀ : fs₀.IsFile q := by
          rw [FS.IsFile, hq₀]
          exact hqf
        have hqsrc : q ≠ op.source := (hcase op hop).1
        have hdir : fs₀.IsDir q :=
          hwf.fileAncestorDirsP op.source (by
            rw [FS.IsFile, hc₀]; rfl) q hqs hqsrc
        exact hwf.filesNotDirsP q hqf₀ hdir
      · push_neg at hcase
        obtain ⟨op', ho', hd⟩ := hcase
        by_cases hqsrc' : q = op'.source
        · rw [FS.IsFile, hqsrc', hinv.lookupSrc op' ho'] at hqf
          cases hqf
        · have hqd : q = op'.destination := hd hqsrc'
          have : outputDir <+: op.source :=
            (hqd ▸ hinv.destUnder op' ho').trans hqs
          exact hinv.srcNotUnder op hop this
    rw [List.reverse_append, List.reverse_singleton, List.singleton_append,
      List.foldl_cons]
    rw [undoStep_restore fs moves errors op hPresent hnb]
    set fs₁ := fs.mkdirParents (parentPath op.source) with hfs₁
    have hl₁ : fs₁.lookupFile op.destination = some c₀ := by
      rw [hfs₁, lookupFile_mkdirParents]
      exact hdl
    have hmv := lookupFile_move fs₁ op.destination op.source c₀ hl₁
    have hdisj_dest : op.destination ∉ ops.map MoveOperation.destination := by
      have := hinv.destNodup
      rw [List.map_append, List.map_singleton, List.nodup_append] at this
      intro hmem
      exact this.2.2 hmem (List.mem_singleton_self _)
    have hdisj_src : op.source ∉ ops.map MoveOperation.source := by
      have := hinv.srcNodup
      rw [List.map_append, List.map_singleton, List.nodup_append] at this
      intro hmem
      exact this.2.2 hmem (List.mem_singleton_self _)
    have hmem' : ∀ op' ∈ ops, op' ∈ ops ++ [op] := fun op' h' =>
      List.mem_append_left _ h'
    have hne_dd : ∀ op' ∈ ops, op'.destination ≠ op.destination := by
      intro op' ho' heq
      exact hdisj_dest (heq ▸ List.mem_map_of_mem MoveOperation.destination ho')
    have hne_ss : ∀ op' ∈ ops, op'.source ≠ op.source := by
      intro op' ho' heq
      exact hdisj_src (heq ▸ List.mem_map_of_mem MoveOperation.source ho')
    have hne_ds : ∀ op' ∈ ops, op'.destination ≠ op.source := by
      intro op' ho' heq
      exact hinv.srcNotUnder op hop (heq ▸ hinv.destUnder op' (hmem' op' ho'))
    have hne_sd : ∀ op' ∈ ops, op'.source ≠ op.destination := by
      intro op' ho' heq
      exact hinv.srcNotUnder op' (hmem' op' ho')
        (heq ▸ hinv.destUnder op hop)
    have hinv' : RunInv outputDir fs₀ ops (fs₁.move op.destination op.source) := by
      refine ⟨fun o h => hinv.destUnder o (hmem' o h),
        fun o h => hinv.srcNotUnder o (hmem' o h), ?_, ?_,
        fun o h => hinv.srcFile₀ o (hmem' o h),
        fun o h => hinv.destNotFile₀ o (hmem' o h), ?_, ?_, ?_, ?_, ?_⟩
      · have h := hinv.destNodup
        rw [List.map_append, List.nodup_append] at h
        exact h.1
      · have h := hinv.srcNodup
        rw [List.map_append, List.nodup_append] at h
        exact h.1
      · intro o h
        rw [hmv o.destination, if_neg (hne_ds o h), if_neg (hne_dd o h),
          hfs₁, lookupFile_mkdirParents]
        exact hinv.lookupDest o (hmem' o h)
      · intro o h
        rw [hmv o.source, if_neg (hne_ss o h), if_neg (hne_sd o h),
          hfs₁, lookupFile_mkdirParents]
        exact hinv.lookupSrc o (hmem' o h)
      · intro p hp
        by_cases hps : p = op.source
        · rw [hmv p, if_pos hps, hps, hc₀]
        · by_cases hpd : p = op.destination
          · rw [hmv p, if_neg hps, if_pos hpd, hpd]
            exact (hinv.destNotFile₀ op hop).symm
          · rw [hmv p, if_neg hps, if_neg hpd, hfs₁, lookupFile_mkdirParents]
            exact hinv.lookupOther p (fun o ho'' =>
              (List.mem_append.mp ho'').elim (fun hh => hp o hh)
                (fun hh => by rw [List.mem_singleton.mp hh]; exact ⟨hps, hpd⟩))
      · exact DirsClosed_move _ _ _
          (DirsClosed_mkdirParents _ _ hinv.closed)
      · exact nodupDirs_move _ _ _
          (nodupDirs_mkdirParents _ _ hinv.nodupDirs)
    exact ih (fs₁.move op.destination op.source)
      (moves ++ [(op.destination, op.source)]) errors hinv'

/-! ### Cleanup-sweep lemmas -/

theorem mem_childDirs (fs : FS) (d c : Path) :
    c ∈ fs.childDirs d ↔ fs.IsDir c ∧ c ≠ [] ∧ parentPath c = d := by
  rw [FS.childDirs, List.mem_filter]
  constructor
  · rintro ⟨h1, h2⟩
    have h3 := of_decide_eq_true h2
    exact ⟨h1, h3.1, h3.2⟩
  · rintro ⟨h1, h2, h3⟩
    exact ⟨h1, decide_eq_true ⟨h2, h3⟩⟩

theorem childDirs_under (fs : FS) (d : Path) : ∀ c ∈ fs.childDirs d, d <+: c := by
  intro c hc
  obtain ⟨_, hne, hp⟩ := (mem_childDirs fs d c).mp hc
  obtain ⟨x, hx⟩ := childDir_eq_parent_append c d hne hp
  rw [hx]
  exact List.prefix_append d [x]

theorem childDirs_length (fs : FS) (d : Path) :
    ∀ c ∈ fs.childDirs d, c.length = d.length + 1 := by
  intro c hc
  obtain ⟨_, hne, hp⟩ := (mem_childDirs fs d c).mp hc
  obtain ⟨x, hx⟩ := childDir_eq_parent_append c d hne hp
  rw [hx]
  simp

/-- Emptiness of a directory inside a subtree depends only on the files and
on the directory set within that subtree. -/
theorem DirNonempty_congr (fs₁ fs₂ : FS) (c q : Path) (hq : c <+: q)
    (hfiles : fs₁.files = fs₂.files)
    (hdirs : ∀ r : Path, c <+: r → (fs₁.IsDir r ↔ fs₂.IsDir r)) :
    fs₁.DirNonempty q ↔ fs₂.DirNonempty q := by
  unfold FS.DirNonempty
  rw [hfiles]
  have hdir_child : ∀ r : Path, r ≠ [] → parentPath r = q →
      (r ∈ fs₁.dirs ↔ r ∈ fs₂.dirs) := by
    intro r hrne hrp
    obtain ⟨x, hx⟩ := childDir_eq_parent_append r q hrne hrp
    exact hdirs r (by rw [hx]; exact hq.trans (List.prefix_append q [x]))
  constructor
  · rintro (h | ⟨r, hr, hrne, hrp⟩)
    · exact Or.inl h
    · exact Or.inr ⟨r, (hdir_child r hrne hrp).mp hr, hrne, hrp⟩
  · rintro (h | ⟨r, hr, hrne, hrp⟩)
    · exact Or.inl h
    · exact Or.inr ⟨r, (hdir_child r hrne hrp).mpr hr, hrne, hrp⟩

/-- Basic facts about one cleanup sweep: files are untouched, directories only
disappear, all removals happen below the sweep's root, and closedness and
duplicate-freedom are preserved. -/
theorem cleanup_basic (outputDir : Path) :
    ∀ (fuel : Nat) (d : Path) (fs : FS),
      ((FileMover.cleanupEmptyDirs outputDir fuel d fs).files = fs.files) ∧
      (∀ q : Path, (FileMover.cleanupEmptyDirs outputDir fuel d fs).IsDir q →
        fs.IsDir q) ∧
      (∀ q : Path, fs.IsDir q →
        ¬ (FileMover.cleanupEmptyDirs outputDir fuel d fs).IsDir q → d <+: q) ∧
      (fs.DirsClosed → (FileMover.cleanupEmptyDirs outputDir fuel d fs).DirsClosed) ∧
      (fs.dirs.Nodup → (FileMover.cleanupEmptyDirs outputDir fuel d fs).dirs.Nodup) := by
  intro fuel
  induction fuel with
  | zero =>
    intro d fs
    exact ⟨rfl, fun q h => h, fun q h h' => absurd h h', fun h => h, fun h => h⟩
  | succ fuel ih =>
    intro d fs
    unfold FileMover.cleanupEmptyDirs
    dsimp only
    split
    · exact ⟨rfl, fun q h => h, fun q h h' => absurd h h', fun h => h, fun h => h⟩
    · have hfold : ∀ (l : List Path) (acc : FS), (∀ c ∈ l, d <+: c) →
          ((l.foldl (fun acc c => FileMover.cleanupEmptyDirs outputDir fuel c acc)
              acc).files = acc.files) ∧
          (∀ q : Path, (l.foldl (fun acc c =>
              FileMover.cleanupEmptyDirs outputDir fuel c acc) acc).IsDir q →
            acc.IsDir q) ∧
          (∀ q : Path, acc.IsDir q → ¬ (l.foldl (fun acc c =>
              FileMover.cleanupEmptyDirs outputDir fuel c acc) acc).IsDir q →
            d <+: q) ∧
          (acc.DirsClosed → (l.foldl (fun acc c =>
              FileMover.cleanupEmptyDirs outputDir fuel c acc) acc).DirsClosed) ∧
          (acc.dirs.Nodup → (l.foldl (fun acc c =>
              FileMover.cleanupEmptyDirs outputDir fuel c acc) acc).dirs.Nodup) := by
        intro l
        induction l with
        | nil =>
          intro acc _
          exact ⟨rfl, fun q h => h, fun q h h' => absurd h h', fun h => h, fun h => h⟩
        | cons c l ihl =>
          intro acc hcl
          rw [List.foldl_cons]
          obtain ⟨f₁, m₁, r₁, cl₁, n₁⟩ := ih c acc
          obtain ⟨f₂, m₂, r₂, cl₂, n₂⟩ :=
            ihl (FileMover.cleanupEmptyDirs outputDir fuel c acc)
              (fun c' h' => hcl c' (List.mem_cons_of_mem c h'))
          refine ⟨f₂.trans f₁, fun q h => m₁ q (m₂ q h), ?_,
            fun h => cl₂ (cl₁ h), fun h => n₂ (n₁ h)⟩
          intro q hq hnq
          by_cases hmid : (FileMover.cleanupEmptyDirs outputDir fuel c acc).IsDir q
          · exact r₂ q hmid hnq
          · exact (hcl c (List.mem_cons_self c l)).trans (r₁ q hq hmid)
      have hf := hfold (fs.childDirs d) fs (childDirs_under fs d)
      split
      case isTrue hcond =>
        refine ⟨by rw [files_rmdir]; exact hf.1, ?_, ?_, ?_, ?_⟩
        · intro q hq
          exact hf.2.1 q ((IsDir_rmdir _ d q).mp hq).1
        · intro q hq hnq
          by_cases hmid : (((fs.childDirs d)).foldl (fun acc c =>
              FileMover.cleanupEmptyDirs outputDir fuel c acc) fs).IsDir q
          · have : q = d := by
              by_contra hne
              exact hnq ((IsDir_rmdir _ d q).mpr ⟨hmid, hne⟩)
            rw [this]
          · exact hf.2.2.1 q hq hmid
        · intro hc
          refine DirsClosed_rmdir _ d (hf.2.2.2.1 hc) ?_
          intro r hr hrne hrp
          exact hcond.2.1 (Or.inr ⟨r, hr, hrne, hrp⟩)
        · intro hn
          exact nodupDirs_rmdir _ d (hf.2.2.2.2 hn)
      case isFalse hcond =>
        exact hf

/-- After a cleanup sweep from `d` with sufficient fuel, every surviving
directory strictly inside the sweep (the output root excepted) is nonempty:
the sweep removed all the empty ones. -/
theorem cleanup_no_empty (outputDir : Path) :
    ∀ (fuel : Nat) (d : Path) (fs : FS),
      fs.DirsClosed → fs.dirs.Nodup →
      (∀ q : Path, fs.IsDir q → q.length < d.length + fuel) →
      ∀ q : Path, (FileMover.cleanupEmptyDirs outputDir fuel d fs).IsDir q →
        d <+: q → q ≠ outputDir →
        (FileMover.cleanupEmptyDirs outputDir fuel d fs).DirNonempty q := by
  intro fuel
  induction fuel with
  | zero =>
    intro d fs _ _ hbound q hq hdq _
    have h1 := hbound q hq
    have h2 := hdq.length_le
    omega
  | succ fuel ih =>
    intro d fs hclosed hnodup hbound q hq hdq hqout
    by_cases hpres : fs.Present d
    case neg =>
      have heq : FileMover.cleanupEmptyDirs outputDir (fuel + 1) d fs = fs := by
        unfold FileMover.cleanupEmptyDirs
        rw [if_pos hpres]
      rw [heq] at hq ⊢
      exact absurd (Or.inr (hclosed q hq d hdq)) hpres
    case pos =>
      set cs := fs.childDirs d with hcs_def
      set fs₁ := cs.foldl
        (fun acc c => FileMover.cleanupEmptyDirs outputDir fuel c acc) fs with hfs₁_def
      have heq : FileMover.cleanupEmptyDirs outputDir (fuel + 1) d fs =
          if fs₁.Present d ∧ ¬ fs₁.DirNonempty d ∧ d ≠ outputDir then fs₁.rmdir d
          else fs₁ := by
        unfold FileMover.cleanupEmptyDirs
        rw [if_neg (not_not_intro hpres)]
      have hchild_len : ∀ c ∈ cs, c.length = d.length + 1 := childDirs_length fs d
      have hcs_nodup : cs.Nodup := hnodup.filter _
      have hfoldspec : ∀ (l : List Path), (∀ c ∈ l, c ∈ cs) → l.Nodup →
          ∀ (acc : FS), acc.DirsClosed → acc.dirs.Nodup →
          (∀ q' : Path, acc.IsDir q' → q'.length < d.length + (fuel + 1)) →
          ((l.foldl (fun acc c => FileMover.cleanupEmptyDirs outputDir fuel c acc)
              acc).files = acc.files) ∧
          (∀ q' : Path, (l.foldl (fun acc c =>
              FileMover.cleanupEmptyDirs outputDir fuel c acc) acc).IsDir q' →
            acc.IsDir q') ∧
          (∀ q' : Path, acc.IsDir q' → ¬ (l.foldl (fun acc c =>
              FileMover.cleanupEmptyDirs outputDir fuel c acc) acc).IsDir q' →
            ∃ c ∈ l, c <+: q') ∧
          (l.foldl (fun acc c => FileMover.cleanupEmptyDirs outputDir fuel c acc)
              acc).DirsClosed ∧
          (l.foldl (fun acc c => FileMover.cleanupEmptyDirs outputDir fuel c acc)
              acc).dirs.Nodup ∧
          (∀ c ∈ l, ∀ q' : Path, (l.foldl (fun acc c =>
              FileMover.cleanupEmptyDirs outputDir fuel c acc) acc).IsDir q' →
            c <+: q' → q' ≠ outputDir →
            (l.foldl (fun acc c => FileMover.cleanupEmptyDirs outputDir fuel c acc)
              acc).DirNonempty q') := by
        intro l
        induction l with
        | nil =>
          intro _ _ acc hc hn _
          exact ⟨rfl, fun q' h => h, fun q' h h' => absurd h h', hc, hn,
            fun c hc' => absurd hc' (List.not_mem_nil c)⟩
        | cons c l ihl =>
          intro hsub hnd acc hacc_closed hacc_nodup hacc_bound
          rw [List.foldl_cons]
          obtain ⟨bf, bm, br, bcl, bn⟩ := cleanup_basic outputDir fuel c acc
          have hclen : c.length = d.length + 1 :=
            hchild_len c (hsub c (List.mem_cons_self c l))
          have hacc_bound_c : ∀ q' : Path, acc.IsDir q' →
              q'.length < c.length + fuel := by
            intro q' h'
            have := hacc_bound q' h'
            omega
          have hpost_c := ih c acc hacc_closed hacc_nodup hacc_bound_c
          set acc₁ := FileMover.cleanupEmptyDirs outputDir fuel c acc with hacc₁_def
          have hacc₁_bound : ∀ q' : Path, acc₁.IsDir q' →
              q'.length < d.length + (fuel + 1) :=
            fun q' h' => hacc_bound q' (bm q' h')
          obtain ⟨rf, rm, rr, rc, rn, rp⟩ :=
            ihl (fun c' h' => hsub c' (List.mem_cons_of_mem c h'))
              (List.nodup_cons.mp hnd).2 acc₁ (bcl hacc_closed) (bn hacc_nodup)
              hacc₁_bound
          have hcnotl : c ∉ l := (List.nodup_cons.mp hnd).1
          refine ⟨rf.trans bf, fun q' h => bm q' (rm q' h), ?_, rc, rn, ?_⟩
          · intro q' hq' hnq'
            by_cases hmid : acc₁.IsDir q'
            · obtain ⟨c', hc', hcq'⟩ := rr q' hmid hnq'
              exact ⟨c', List.mem_cons_of_mem c hc', hcq'⟩
            · exact ⟨c, List.mem_cons_self c l, br q' hq' hmid⟩
          · intro c' hc' q' hq' hcq' hq'out
            rcases List.mem_cons.mp hc' with rfl | hc'l
            · have hstab : ∀ r : Path, c' <+: r → ((l.foldl (fun acc c =>
                  FileMover.cleanupEmptyDirs outputDir fuel c acc) acc₁).IsDir r ↔
                    acc₁.IsDir r) := by
                intro r hcr
                constructor
                · exact rm r
                · intro hr
                  by_contra hnr
                  obtain ⟨c'', hc'', hc''r⟩ := rr r hr hnr
                  have hlen'' : c''.length = d.length + 1 :=
                    hchild_len c'' (hsub c'' (List.mem_cons_of_mem c' hc''))
                  have : c'' = c' := by
                    rcases List.prefix_or_prefix_of_prefix hc''r hcr with h | h
                    · exact List.IsPrefix.eq_of_length h (by omega)
                    · exact (List.IsPrefix.eq_of_length h (by omega)).symm
                  rw [this] at hc''
                  exact hcnotl hc''
              have hq'acc₁ : acc₁.IsDir q' := (hstab q' hcq').mp hq'
              have hpost := hpost_c q' hq'acc₁ hcq' hq'out
              exact (DirNonempty_congr _ acc₁ c' q' hcq' rf hstab).mpr hpost
            · exact rp c' hc'l q' hq' hcq' hq'out
      obtain ⟨gf, gm, gr, gc, gn, gp⟩ :=
        hfoldspec cs (fun c h => h) hcs_nodup fs hclosed hnodup hbound
      rw [heq] at hq ⊢
      by_cases hcond : fs₁.Present d ∧ ¬ fs₁.DirNonempty d ∧ d ≠ outputDir
      · rw [if_pos hcond] at hq ⊢
        have hq₁ : fs₁.IsDir q ∧ q ≠ d := (IsDir_rmdir fs₁ d q).mp hq
        obtain ⟨t, htq, htne, htp⟩ :=
          exists_child_of_ssubpath hdq (fun h => hq₁.2 h.symm)
        have htdir : fs.IsDir t := hclosed q (gm q hq₁.1) t htq
        have htcs : t ∈ cs := (mem_childDirs fs d t).mpr ⟨htdir, htne, htp⟩
        have hmain := gp t htcs q hq₁.1 htq hqout
        have htlen : t.length = d.length + 1 := hchild_len t htcs
        have htd : ∀ r : Path, t <+: r → ((fs₁.rmdir d).IsDir r ↔ fs₁.IsDir r) := by
          intro r htr
          rw [IsDir_rmdir]
          constructor
          · exact fun h => h.1
          · intro h
            refine ⟨h, ?_⟩
            rintro rfl
            have := htr.length_le
            omega
        exact (DirNonempty_congr (fs₁.rmdir d) fs₁ t q htq
          (files_rmdir fs₁ d) htd).mpr hmain
      · rw [if_neg hcond] at hq ⊢
        by_cases hqd : q = d
        · subst hqd
          have hqpres : fs₁.Present q := Or.inr hq
          by_contra hne
          exact hcond ⟨hqpres, hne, hqout⟩
        · obtain ⟨t, htq, htne, htp⟩ :=
            exists_child_of_ssubpath hdq (fun h => hqd h.symm)
          have htdir : fs.IsDir t := hclosed q (gm q hq) t htq
          have htcs : t ∈ cs := (mem_childDirs fs d t).mpr ⟨htdir, htne, htp⟩
          exact gp t htcs q hq htq hqout

/-! ## Claim C2 -/

/-- Each undo iteration adds exactly one outcome: a restored move or an
error. -/
theorem undoStep_outcome_count (acc : FS × List (Path × Path) × List String)
    (op : MoveOperation) :
    (FileMover.undoStep acc op).2.1.length + (FileMover.undoStep acc op).2.2.length =
      acc.2.1.length + acc.2.2.length + 1 := by
  obtain ⟨fs, moves, errors⟩ := acc
  by_cases h₁ : fs.Present op.destination
  · by_cases h₂ : ∃ q ∈ (parentPath op.source).inits, fs.IsFile q
    · rw [undoStep_blocked fs moves errors op h₁ h₂]
      simp only [List.length_append, List.length_singleton]
      omega
    · rw [undoStep_restore fs moves errors op h₁ h₂]
      simp only [List.length_append, List.length_singleton]
      omega
  · rw [undoStep_missing fs moves errors op h₁]
    simp only [List.length_append, List.length_singleton]
    omega

theorem undoFold_outcome_count :
    ∀ (ops : List MoveOperation) (acc : FS × List (Path × Path) × List String),
      (ops.foldl FileMover.undoStep acc).2.1.length +
          (ops.foldl FileMover.undoStep acc).2.2.length =
        acc.2.1.length + acc.2.2.length + ops.length := by
  intro ops
  induction ops with
  | nil => intro acc; simp
  | cons op ops ih =>
    intro acc
    rw [List.foldl_cons, ih]
    have := undoStep_outcome_count acc op
    simp only [List.length_cons]
    omega

/-- The restored moves accumulate in processing order: they form an
order-preserving sublist of the processed operations' `(dest, source)`
pairs. -/
theorem undoFold_moves_sublist :
    ∀ (ops : List MoveOperation) (acc : FS × List (Path × Path) × List String),
      List.Sublist (ops.foldl FileMover.undoStep acc).2.1
        (acc.2.1 ++ ops.map (fun op => (op.destination, op.source))) := by
  intro ops
  induction ops with
  | nil => intro acc; simp
  | cons op ops ih =>
    intro acc
    rw [List.foldl_cons]
    refine (ih (FileMover.undoStep acc op)).trans ?_
    obtain ⟨fs, moves, errors⟩ := acc
    by_cases h₁ : fs.Present op.destination
    · by_cases h₂ : ∃ q ∈ (parentPath op.source).inits, fs.IsFile q
      · rw [undoStep_blocked fs moves errors op h₁ h₂]
        simp only [List.map_cons]
        exact (List.sublist_cons_self _ _).append_left moves
      · rw [undoStep_restore fs moves errors op h₁ h₂]
        simp only [List.map_cons, List.append_assoc, List.singleton_append]
        exact List.Sublist.refl _
    · rw [undoStep_missing fs moves errors op h₁]
      simp only [List.map_cons]
      exact (List.sublist_cons_self _ _).append_left moves

/-- Claim C2: for the selected completed session — the session is removed
from the log (by id) whether or not errors occurred; the success flag is true
iff no per-operation error occurred; every operation is attempted, each
contributing exactly one outcome; operations are processed in reverse append
order (the restored pairs are an order-preserving sublist of the reversed
operation list); the reported moves are the fold's restored moves; a missing
recorded destination records an error and the loop continues; an existing
destination has the source's parents recreated and the file moved back. -/
theorem C2_undo_reverse_best_effort (outputDir : Path) (fs : FS)
    (log : List OrganizationSession) (sess : OrganizationSession)
    (h : UndoLog.getLastSession log = some sess) :
    (FileMover.undoLastSession outputDir fs log).2.1 =
      UndoLog.removeSession log sess ∧
    ((FileMover.undoLastSession outputDir fs log).2.2.1 = true ↔
      (FileMover.undoFold fs sess.operations).2.2 = []) ∧
    (FileMover.undoFold fs sess.operations).2.1.length +
      (FileMover.undoFold fs sess.operations).2.2.length =
        sess.operations.length ∧
    List.Sublist (FileMover.undoFold fs sess.operations).2.1
      (sess.operations.reverse.map (fun op => (op.destination, op.source))) ∧
    (FileMover.undoLastSession outputDir fs log).2.2.2.2 =
      (FileMover.undoFold fs sess.operations).2.1 ∧
    (∀ (fs' : FS) (moves : List (Path × Path)) (errors : List String)
        (op : MoveOperation), ¬ fs'.Present op.destination →
      FileMover.undoStep (fs', moves, errors) op =
        (fs', moves, errors ++ ["File not found: " ++ pathName op.destination])) ∧
    (∀ (fs' : FS) (moves : List (Path × Path)) (errors : List String)
        (op : MoveOperation), fs'.Present op.destination →
      ¬ (∃ q ∈ (parentPath op.source).inits, fs'.IsFile q) →
      FileMover.undoStep (fs', moves, errors) op =
        ((fs'.mkdirParents (parentPath op.source)).move op.destination op.source,
          moves ++ [(op.destination, op.source)], errors)) := by
  refine ⟨?_, ?_, ?_, ?_, ?_, undoStep_missing, undoStep_restore⟩
  · unfold FileMover.undoLastSession
    rw [h]
    dsimp only
    split <;> rfl
  · unfold FileMover.undoLastSession
    rw [h]
    dsimp only
    split
    case isTrue hne => simp only [Bool.false_eq_true, false_iff]; exact hne
    case isFalse hne =>
      simp only [ne_eq, not_not] at hne
      simp [hne]
  · have := undoFold_outcome_count sess.operations.reverse (fs, [], [])
    simpa [FileMover.undoFold] using this
  · have := undoFold_moves_sublist sess.operations.reverse (fs, [], [])
    simpa [FileMover.undoFold] using this
  · unfold FileMover.undoLastSession
    rw [h]
    dsimp only
    split <;> rfl

/-- Witness for C2: a one-operation completed session whose recorded
destination is missing. -/
theorem C2_undo_reverse_best_effort_witness :
    UndoLog.getLastSession
        [⟨"id1", "ts", ["s"], ["out"],
          [⟨["s", "f.txt"], ["out", "Misc", "f.txt"], "Miscellaneous", "r", "ts"⟩],
          true⟩] =
      some ⟨"id1", "ts", ["s"], ["out"],
        [⟨["s", "f.txt"], ["out", "Misc", "f.txt"], "Miscellaneous", "r", "ts"⟩],
        true⟩ ∧
    ((FileMover.undoLastSession ["out"] ⟨[], [[]]⟩
        [⟨"id1", "ts", ["s"], ["out"],
          [⟨["s", "f.txt"], ["out", "Misc", "f.txt"], "Miscellaneous", "r", "ts"⟩],
          true⟩]).2.1 =
      UndoLog.removeSession
        [⟨"id1", "ts", ["s"], ["out"],
          [⟨["s", "f.txt"], ["out", "Misc", "f.txt"], "Miscellaneous", "r", "ts"⟩],
          true⟩]
        ⟨"id1", "ts", ["s"], ["out"],
          [⟨["s", "f.txt"], ["out", "Misc", "f.txt"], "Miscellaneous", "r", "ts"⟩],
          true⟩) := by
  constructor
  · decide
  · exact (C2_undo_reverse_best_effort ["out"] ⟨[], [[]]⟩
      [⟨"id1", "ts", ["s"], ["out"],
        [⟨["s", "f.txt"], ["out", "Misc", "f.txt"], "Miscellaneous", "r", "ts"⟩],
        true⟩]
      ⟨"id1", "ts", ["s"], ["out"],
        [⟨["s", "f.txt"], ["out", "Misc", "f.txt"], "Miscellaneous", "r", "ts"⟩],
        true⟩ (by decide)).1

/-- Claim C1: organize-then-undo round trip.  Starting from any well-formed
filesystem, organizing any batch of analyzed files whose paths do not lie
under the output root (one real session: `start_session`, the moves,
`end_session`), and then running `undo_last_session`, (a) restores the file
map exactly — every file, in the source directory in particular, is back at
its original path with its original contents, and no file created by the run
survives; (b) leaves no empty directory strictly under the session's output
root (the root itself is never removed); and (c) reports success. -/
theorem C1_organize_undo_round_trip
    (outputDir sourceDir : Path) (t : PyDateTime) (now : String)
    (fs₀ : FS) (log₀ : List OrganizationSession) (results : List AnalysisResult)
    (hwf : fs₀.WF)
    (hsrc : ∀ r ∈ results, ¬ outputDir <+: r.file_info.path) :
    (∀ p : Path,
      (FileMover.undoLastSession outputDir
        (FileMover.organizeSession outputDir sourceDir t now false fs₀ log₀ results).1
        (FileMover.organizeSession outputDir sourceDir t now false fs₀ log₀ results).2.1).1.lookupFile p
        = fs₀.lookupFile p) ∧
    (∀ d : Path,
      (FileMover.undoLastSession outputDir
        (FileMover.organizeSession outputDir sourceDir t now false fs₀ log₀ results).1
        (FileMover.organizeSession outputDir sourceDir t now false fs₀ log₀ results).2.1).1.IsDir d →
      outputDir <+: d → d ≠ outputDir →
      (FileMover.undoLastSession outputDir
        (FileMover.organizeSession outputDir sourceDir t now false fs₀ log₀ results).1
        (FileMover.organizeSession outputDir sourceDir t now false fs₀ log₀ results).2.1).1.DirNonempty d) ∧
    (FileMover.undoLastSession outputDir
      (FileMover.organizeSession outputDir sourceDir t now false fs₀ log₀ results).1
      (FileMover.organizeSession outputDir sourceDir t now false fs₀ log₀ results).2.1).2.2.1 = true := by
  set sess₀ : OrganizationSession :=
    ⟨sessionIdOf t, isoOf t, sourceDir, outputDir, [], false⟩ with hsess₀
  set run := FileMover.runMoves outputDir false now results fs₀ sess₀ with hrun
  have horg1 :
      (FileMover.organizeSession outputDir sourceDir t now false fs₀ log₀ results).1 =
        run.1 := rfl
  have horg2 :
      (FileMover.organizeSession outputDir sourceDir t now false fs₀ log₀ results).2.1 =
        log₀ ++ [UndoLog.completeSession run.2.1] := rfl
  rw [horg1, horg2]
  set sessC := UndoLog.completeSession run.2.1 with hsessC
  have hops₀ : sess₀.operations = ([] : List MoveOperation) := rfl
  have hinv₀ : RunInv outputDir fs₀ sess₀.operations fs₀ := by
    rw [hops₀]
    exact ⟨fun op hop => absurd hop (List.not_mem_nil op),
      fun op hop => absurd hop (List.not_mem_nil op),
      List.nodup_nil, List.nodup_nil,
      fun op hop => absurd hop (List.not_mem_nil op),
      fun op hop => absurd hop (List.not_mem_nil op),
      fun op hop => absurd hop (List.not_mem_nil op),
      fun op hop => absurd hop (List.not_mem_nil op),
      fun p _ => rfl,
      hwf.dirsClosedP, hwf.nodupDirs⟩
  have hinv_run : RunInv outputDir fs₀ run.2.1.operations run.1 :=
    runMoves_inv outputDir fs₀ now results fs₀ sess₀ hsrc hinv₀
  have hlast : UndoLog.getLastSession (log₀ ++ [sessC]) = some sessC := by
    unfold UndoLog.getLastSession
    rw [List.reverse_append, List.reverse_singleton, List.singleton_append]
    exact List.find?_cons_of_pos _ (by rfl)
  obtain ⟨fs', moves', hfold, hfin⟩ :=
    undo_replay outputDir fs₀ hwf run.2.1.operations run.1 [] [] hinv_run
  have hfoldC : FileMover.undoFold run.1 sessC.operations =
      (fs', moves', ([] : List String)) := hfold
  have hod : sessC.output_directory = outputDir :=
    (runMoves_session_fields outputDir false now results fs₀ sess₀).1
  have hu : FileMover.undoLastSession outputDir run.1 (log₀ ++ [sessC]) =
      (FileMover.cleanupEmptyDirs outputDir (FileMover.cleanupFuel fs')
          sessC.output_directory fs',
        UndoLog.removeSession (log₀ ++ [sessC]) sessC, true,
        "Successfully undid " ++ Nat.repr moves'.length ++ " file moves",
        moves') := by
    unfold FileMover.undoLastSession
    rw [hlast]
    dsimp only
    rw [hfoldC]
    rw [if_neg (by simp)]
  rw [hu]
  refine ⟨?_, ?_, rfl⟩
  · intro p
    show (FileMover.cleanupEmptyDirs outputDir (FileMover.cleanupFuel fs')
        sessC.output_directory fs').lookupFile p = fs₀.lookupFile p
    have hfiles := (cleanup_basic outputDir (FileMover.cleanupFuel fs')
        sessC.output_directory fs').1
    rw [lookupFile_eq_lookupEntries, hfiles, ← lookupFile_eq_lookupEntries]
    exact hfin.lookupOther p (fun op hop => absurd hop (List.not_mem_nil op))
  · intro d hd hpre hne
    have hbound : ∀ q : Path, fs'.IsDir q →
        q.length < sessC.output_directory.length + FileMover.cleanupFuel fs' := by
      intro q hq
      have h1 : q.length ≤ (fs'.dirs.map List.length).foldr max 0 :=
        length_le_foldr_max fs'.dirs q hq
      have h2 : FileMover.cleanupFuel fs' =
          (fs'.dirs.map List.length).foldr max 0 + 1 := rfl
      omega
    exact cleanup_no_empty outputDir (FileMover.cleanupFuel fs')
      sessC.output_directory fs' hfin.closed hfin.nodupDirs hbound d hd
      (by rw [hod]; exact hpre) hne

/-- Witness for C1: one file `s/a.txt` organized into `out/Misc` and then
undone. -/
theorem C1_organize_undo_round_trip_witness :
    (⟨[(["s", "a.txt"], 7)], [[], ["s"]]⟩ : FS).WF ∧
    (∀ r ∈ [(⟨⟨["s", "a.txt"], "a.txt", ".txt", none, none⟩, miscCategory,
        3 / 10, "No clear category match", "fallback"⟩ : AnalysisResult)],
      ¬ ["out"] <+: r.file_info.path) ∧
    ((∀ p : Path,
      (FileMover.undoLastSession ["out"]
        (FileMover.organizeSession ["out"] ["s"] ⟨2024, 6, 1, 12, 0, 0, 0⟩ "now"
          false ⟨[(["s", "a.txt"], 7)], [[], ["s"]]⟩ []
          [⟨⟨["s", "a.txt"], "a.txt", ".txt", none, none⟩, miscCategory,
            3 / 10, "No clear category match", "fallback"⟩]).1
        (FileMover.organizeSession ["out"] ["s"] ⟨2024, 6, 1, 12, 0, 0, 0⟩ "now"
          false ⟨[(["s", "a.txt"], 7)], [[], ["s"]]⟩ []
          [⟨⟨["s", "a.txt"], "a.txt", ".txt", none, none⟩, miscCategory,
            3 / 10, "No clear category match", "fallback"⟩]).2.1).1.lookupFile p
        = (⟨[(["s", "a.txt"], 7)], [[], ["s"]]⟩ : FS).lookupFile p) ∧
    (∀ d : Path,
      (FileMover.undoLastSession ["out"]
        (FileMover.organizeSession ["out"] ["s"] ⟨2024, 6, 1, 12, 0, 0, 0⟩ "now"
          false ⟨[(["s", "a.txt"], 7)], [[], ["s"]]⟩ []
          [⟨⟨["s", "a.txt"], "a.txt", ".txt", none, none⟩, miscCategory,
            3 / 10, "No clear category match", "fallback"⟩]).1
        (FileMover.organizeSession ["out"] ["s"] ⟨2024, 6, 1, 12, 0, 0, 0⟩ "now"
          false ⟨[(["s", "a.txt"], 7)], [[], ["s"]]⟩ []
          [⟨⟨["s", "a.txt"], "a.txt", ".txt", none, none⟩, miscCategory,
            3 / 10, "No clear category match", "fallback"⟩]).2.1).1.IsDir d →
      ["out"] <+: d → d ≠ ["out"] →
      (FileMover.undoLastSession ["out"]
        (FileMover.organizeSession ["out"] ["s"] ⟨2024, 6, 1, 12, 0, 0, 0⟩ "now"
          false ⟨[(["s", "a.txt"], 7)], [[], ["s"]]⟩ []
          [⟨⟨["s", "a.txt"], "a.txt", ".txt", none, none⟩, miscCategory,
            3 / 10, "No clear category match", "fallback"⟩]).1
        (FileMover.organizeSession ["out"] ["s"] ⟨2024, 6, 1, 12, 0, 0, 0⟩ "now"
          false ⟨[(["s", "a.txt"], 7)], [[], ["s"]]⟩ []
          [⟨⟨["s", "a.txt"], "a.txt", ".txt", none, none⟩, miscCategory,
            3 / 10, "No clear category match", "fallback"⟩]).2.1).1.DirNonempty d) ∧
    (FileMover.undoLastSession ["out"]
        (FileMover.organizeSession ["out"] ["s"] ⟨2024, 6, 1, 12, 0, 0, 0⟩ "now"
          false ⟨[(["s", "a.txt"], 7)], [[], ["s"]]⟩ []
          [⟨⟨["s", "a.txt"], "a.txt", ".txt", none, none⟩, miscCategory,
            3 / 10, "No clear category match", "fallback"⟩]).1
        (FileMover.organizeSession ["out"] ["s"] ⟨2024, 6, 1, 12, 0, 0, 0⟩ "now"
          false ⟨[(["s", "a.txt"], 7)], [[], ["s"]]⟩ []
          [⟨⟨["s", "a.txt"], "a.txt", ".txt", none, none⟩, miscCategory,
            3 / 10, "No clear category match", "fallback"⟩]).2.1).2.2.1 = true) :=
  ⟨by decide, by decide,
    C1_organize_undo_round_trip ["out"] ["s"] ⟨2024, 6, 1, 12, 0, 0, 0⟩ "now"
      ⟨[(["s", "a.txt"], 7)], [[], ["s"]]⟩ []
      [⟨⟨["s", "a.txt"], "a.txt", ".txt", none, none⟩, miscCategory,
        3 / 10, "No clear category match", "fallback"⟩]
      (by decide) (by decide)⟩

end DesktopOrganizer
